import Mathlib

/-!
Verification of the systemg orchestrator example (task-graph scheduler and
agent runtime) against its specification.

This file shallowly embeds the Python modules
`examples/orchestrator/orchestrator/cache.py` (class RedisStore),
`examples/orchestrator/orchestrator/runtime.py` (class AgentRuntime) and
`examples/orchestrator/orchestrator/models.py` in Lean 4, and proves or
refutes the frozen claims C1-C10 about them.

Modelling conventions:
* A `Store` holds the Redis keys of a single goal: the `dag:<goal>:nodes`
  and `dag:<goal>:deps` hashes as insertion-ordered association lists
  (Redis hashes preserve field insertion order and update fields in
  place), the per-task `task:<id>` hashes, the `task:<id>:lock` strings
  and the `goal:<goal>:spending_cap_until` string.
* Timestamps are modelled by integers; ISO-8601 serialisation of a
  timezone-aware datetime is injective and `fromisoformat ∘ isoformat`
  is the identity, so a serialised timestamp is represented by its
  instant (constructor `RVal.time`).  Likewise `json.dumps`/`json.loads`
  of a list of strings round-trips, represented by `RVal.jlist`.
* Lock TTLs and key TTLs are not advanced by a clock; a lock is simply
  present or absent, and the spending-cap key's TTL coincides with the
  explicit `until ≤ now` check performed by the code on read.
* Python `int(...)` on the canonical numerals the code itself writes is
  modelled by `String.toInt?`; a parse failure (exception) is modelled
  by propagating `none`.
* Logging and the agent memory snapshot keys (`agent:<name>:memory`),
  which no claim mentions, are omitted; `str.strip`/`str.lower` are
  modelled on ASCII text.
-/

/-- models.py TaskStatus. -/
inductive TaskStatus
  | ready
  | claimed
  | running
  | blocked
  | dev_done
  | qa_failed
  | qa_passed
  | integrated
  | done
  | failed
deriving DecidableEq, Repr

/-- models.py TaskNode.  `priority` is declared `Field(ge=0)` in the source;
we use `Int` because pydantic does not re-validate attribute assignment
(`_elevate_task` can store any parsed integer).  `metadata` is a Python
dict: an insertion-ordered association list with unique keys. -/
structure TaskNode where
  id : String
  title : String
  priority : Int
  expected_artifacts : List String := []
  metadata : List (String × String) := []
deriving DecidableEq, Repr

/-- models.py DagModel; an edge `(source, target)` means target depends on
source. -/
structure DagModel where
  goal_id : String
  nodes : List TaskNode
  edges : List (String × String)
deriving DecidableEq, Repr

/-- models.py DagModel.dependencies_for: upstream dependencies of a node. -/
def DagModel.dependencies_for (dag : DagModel) (node_id : String) : List String :=
  (dag.edges.filter (fun e => e.2 = node_id)).map (fun e => e.1)

/-- models.py TaskState. -/
structure TaskState where
  status : TaskStatus
  owner : Option String := none
  lease_expires : Option Int := none
  progress : Option String := none
  artifacts : List String := []
  last_error : Option String := none
deriving DecidableEq, Repr

/-- A value stored in a `task:<id>` Redis hash field: a plain string, an
ISO-8601 timestamp (represented by its instant), or a JSON-encoded list
of strings. -/
inductive RVal
  | str (s : String)
  | time (t : Int)
  | jlist (l : List String)
deriving DecidableEq, Repr

/-- Decimal digits of a natural number, least significant first, with
structural fuel (`n` itself suffices) so it reduces in the kernel; this
models Python `str(n)`. -/
def digitsRevF : Nat → Nat → List Nat
  | 0, n => [n % 10]
  | fuel + 1, n => if n < 10 then [n] else (n % 10) :: digitsRevF fuel (n / 10)

/-- Decimal digits of a natural number, least significant first. -/
def digitsRev (n : Nat) : List Nat := digitsRevF n n

/-- Value of a least-significant-first digit list. -/
def valDigits : List Nat → Nat
  | [] => 0
  | d :: ds => d + 10 * valDigits ds

/-- ASCII digit character, as printed by Python `str`. -/
def decDigitChar (d : Nat) : Char :=
  match d with
  | 0 => '0' | 1 => '1' | 2 => '2' | 3 => '3' | 4 => '4'
  | 5 => '5' | 6 => '6' | 7 => '7' | 8 => '8' | 9 => '9'
  | _ => '*'

/-- Python `str(n)` for a natural number: decimal, most significant digit
first, no sign, no padding. -/
def strOfNat (n : Nat) : String :=
  String.mk (((digitsRev n).reverse).map decDigitChar)

/-- Python `str(i)` for an integer. -/
def strOfInt (i : Int) : String :=
  if i < 0 then "-" ++ strOfNat i.natAbs else strOfNat i.toNat

/-- Decimal digit value of a character. -/
def digitVal? (c : Char) : Option Nat :=
  if '0' ≤ c ∧ c ≤ '9' then some (c.toNat - 48) else none

/-- Parse a non-empty all-digit character list. -/
def natOfDigitsAux : List Char → Nat → Option Nat
  | [], acc => some acc
  | c :: cs, acc =>
    match digitVal? c with
    | some d => natOfDigitsAux cs (acc * 10 + d)
    | none => none

/-- Parse a decimal numeral. -/
def natOfDigits? (l : List Char) : Option Nat :=
  if l.isEmpty then none else natOfDigitsAux l 0

/-- Python `int(s)` on the canonical numerals this code base writes
(`str(n)` output: an optional minus sign then decimal digits); a
non-numeral raises, modelled by `none`. -/
def pyInt? (s : String) : Option Int :=
  match s.data with
  | '-' :: rest => (natOfDigits? rest).map (fun n => -(n : Int))
  | l => (natOfDigits? l).map (fun n => (n : Int))

/-- Python `s or fallback` on strings: the fallback is used when `s` is
empty. -/
def py_or_str (s fallback : String) : String :=
  if s = "" then fallback else s

/-- Python `value or None` on an optional string field: an empty string
becomes `None`. -/
def py_or_none (v : Option String) : Option String :=
  match v with
  | none => none
  | some s => if s = "" then none else some s

/-- Lower-case an ASCII string (model of Python `str.lower`). -/
def lowerAscii (s : String) : String :=
  String.mk (s.data.map Char.toLower)

/-- Python-`str.strip` whitespace. -/
def isPyWhitespace (c : Char) : Bool :=
  c = ' ' ∨ c = '\t' ∨ c = '\n' ∨ c = '\r' ∨ c = '\x0b' ∨ c = '\x0c'

/-- Model of Python `str.strip`: drop leading and trailing whitespace. -/
def pyStrip (s : String) : String :=
  String.mk (((s.data.dropWhile isPyWhitespace).reverse.dropWhile isPyWhitespace).reverse)

/-- Model of Python `str.strip().lower()` for oracle status strings. -/
def pyStripLower (s : String) : String :=
  lowerAscii (pyStrip s)

/-- The serialised status strings (the `str`-valued enum members). -/
def statusStr : TaskStatus → String
  | .ready => "ready"
  | .claimed => "claimed"
  | .running => "running"
  | .blocked => "blocked"
  | .dev_done => "dev_done"
  | .qa_failed => "qa_failed"
  | .qa_passed => "qa_passed"
  | .integrated => "integrated"
  | .done => "done"
  | .failed => "failed"

/-- `TaskStatus(value)`: parse a status string, `none` models the raised
ValueError for an unknown value. -/
def statusOfStr : String → Option TaskStatus
  | "ready" => some .ready
  | "claimed" => some .claimed
  | "running" => some .running
  | "blocked" => some .blocked
  | "dev_done" => some .dev_done
  | "qa_failed" => some .qa_failed
  | "qa_passed" => some .qa_passed
  | "integrated" => some .integrated
  | "done" => some .done
  | "failed" => some .failed
  | _ => none

/-- cache.py RedisStore._serialize_state: `model_dump(mode="json")` in field
order (status, owner, lease_expires, progress, artifacts, last_error),
dropping `None` values; lists are JSON-encoded, other values pass through
(`value or ""` keeps an empty string empty). -/
def serialize_state (s : TaskState) : List (String × RVal) :=
  [("status", RVal.str (statusStr s.status))]
  ++ (match s.owner with | some o => [("owner", RVal.str o)] | none => [])
  ++ (match s.lease_expires with | some t => [("lease_expires", RVal.time t)] | none => [])
  ++ (match s.progress with | some p => [("progress", RVal.str p)] | none => [])
  ++ [("artifacts", RVal.jlist s.artifacts)]
  ++ (match s.last_error with | some e => [("last_error", RVal.str e)] | none => [])

/-- Field decoder for `status`: the hash value must be a string naming a
TaskStatus, otherwise `TaskState(**normalized)` raises (modelled `none`). -/
def ds_status (raw : List (String × RVal)) : Option TaskStatus :=
  match raw.lookup "status" with
  | some (RVal.str v) => statusOfStr v
  | _ => none

/-- Field decoder for the optional string fields (`owner`, `progress`,
`last_error`): `value or None` turns an empty string into `None`; an
absent key stays `None`. -/
def ds_opt_str (raw : List (String × RVal)) (key : String) : Option (Option String) :=
  match raw.lookup key with
  | none => some none
  | some (RVal.str v) => some (if v = "" then none else some v)
  | some _ => none

/-- Field decoder for `lease_expires`: `datetime.fromisoformat` on a present
truthy value. -/
def ds_lease (raw : List (String × RVal)) : Option (Option Int) :=
  match raw.lookup "lease_expires" with
  | none => some none
  | some (RVal.time t) => some (some t)
  | some _ => none

/-- Field decoder for `artifacts`: `json.loads(value or "[]")`. -/
def ds_artifacts (raw : List (String × RVal)) : Option (List String) :=
  match raw.lookup "artifacts" with
  | none => some []
  | some (RVal.jlist l) => some l
  | some _ => none

/-- cache.py RedisStore._deserialize_state; `none` models the raised
ValueError on an invalid payload. -/
def deserialize_state (raw : List (String × RVal)) : Option TaskState := do
  let status ← ds_status raw
  let owner ← ds_opt_str raw "owner"
  let lease ← ds_lease raw
  let progress ← ds_opt_str raw "progress"
  let artifacts ← ds_artifacts raw
  let last_error ← ds_opt_str raw "last_error"
  pure ⟨status, owner, lease, progress, artifacts, last_error⟩

/-- The state a stored-then-reloaded `TaskState` collapses to: empty
optional string fields read back as null. -/
def normalize_state (s : TaskState) : TaskState :=
  { s with
    owner := py_or_none s.owner
    progress := py_or_none s.progress
    last_error := py_or_none s.last_error }

/-- A state none of whose optional string fields is the empty string. -/
def NormalizedState (s : TaskState) : Prop :=
  s.owner ≠ some "" ∧ s.progress ≠ some "" ∧ s.last_error ≠ some ""

/-- Redis `HSET` on an association-list hash: an existing field is updated
in place (Redis preserves field order), a new field is appended. -/
def hset {α : Type} (l : List (String × α)) (k : String) (v : α) : List (String × α) :=
  if l.any (fun p => p.1 = k) then
    l.map (fun p => if p.1 = k then (k, v) else p)
  else l ++ [(k, v)]

/-- The Redis keys used by one goal's scheduler state (see the file
header for the key layout).  `nodes` is the `dag:<goal>:nodes` hash,
`deps` the `dag:<goal>:deps` hash (each dependency list JSON-decoded),
`states` maps a task id to its `task:<id>` hash when the key exists,
`locks` maps a task id to the owner stored at `task:<id>:lock`, and
`capUntil` is the `goal:<goal>:spending_cap_until` value. -/
structure Store where
  nodes : List (String × TaskNode)
  deps : List (String × List String)
  states : String → Option (List (String × RVal))
  locks : String → Option String
  capUntil : Option Int

/-- cache.py RedisStore.get_task_state: an absent or empty hash gives
`None`; an undecodable hash raises (both modelled by `none`). -/
def get_task_state (st : Store) (task_id : String) : Option TaskState :=
  match st.states task_id with
  | none => none
  | some raw => deserialize_state raw

/-- cache.py RedisStore.update_task_state: delete the hash, then write the
serialised state. -/
def update_task_state (st : Store) (task_id : String) (state : TaskState) : Store :=
  { st with states := fun k => if k = task_id then some (serialize_state state) else st.states k }

/-- cache.py RedisStore.get_task_node. -/
def get_task_node (st : Store) (task_id : String) : Option TaskNode :=
  st.nodes.lookup task_id

/-- cache.py RedisStore.update_task_node. -/
def update_task_node (st : Store) (node : TaskNode) : Store :=
  { st with nodes := hset st.nodes node.id node }

/-- cache.py RedisStore.read_dag: `None` when the nodes hash is empty,
otherwise the DAG reassembled from the two hashes (edges `dep → node` in
hash order).  Pydantic validation of the reassembled model is assumed to
succeed (theorems carry a `DagConsistentB` hypothesis for that). -/
def read_dag (st : Store) (goal_id : String) : Option DagModel :=
  if st.nodes.isEmpty then none
  else some ⟨goal_id, st.nodes.map (fun p => p.2),
    (st.deps.map (fun p => p.2.map (fun d => (d, p.1)))).flatten⟩

/-- The per-node initial state written by write_dag: READY for a node
without dependencies, else BLOCKED. -/
def initStateFor (deps : List String) : TaskState :=
  ⟨if deps.isEmpty then .ready else .blocked, none, none, none, [], none⟩

/-- `HSET`ting the serialised initial state into an existing task hash
(write_dag does not delete the hash first). -/
def mergeInit (old : List (String × RVal)) (deps : List String) : List (String × RVal) :=
  (serialize_state (initStateFor deps)).foldl (fun raw kv => hset raw kv.1 kv.2) old

/-- One pipeline entry of cache.py RedisStore.write_dag: write the node
JSON, its dependency list, and `HSET` the initial state fields into the
task hash. -/
def write_dag_step (dag : DagModel) (acc : Store) (n : TaskNode) : Store :=
  { acc with
    nodes := hset acc.nodes n.id n
    deps := hset acc.deps n.id (dag.dependencies_for n.id)
    states := fun t =>
      if t = n.id then some (mergeInit ((acc.states t).getD []) (dag.dependencies_for n.id))
      else acc.states t }

/-- cache.py RedisStore.write_dag: delete both DAG hashes, then per node
write the node JSON, its dependency list, and the initial state fields.
The task hash is NOT deleted first, so fields of a previous state that
the initial state does not carry survive. -/
def write_dag (st : Store) (dag : DagModel) : Store :=
  dag.nodes.foldl (write_dag_step dag) { st with nodes := [], deps := [] }

/-- cache.py RedisStore.lock_owner. -/
def lock_owner (st : Store) (task_id : String) : Option String :=
  st.locks task_id

/-- cache.py RedisStore.acquire_lock: atomic set-if-absent (the TTL is
abstracted away, see header). -/
def acquire_lock (st : Store) (task_id agent_name : String) : Store × Bool :=
  match st.locks task_id with
  | some _ => (st, false)
  | none => ({ st with locks := fun k => if k = task_id then some agent_name else st.locks k }, true)

/-- cache.py RedisStore.release_lock: delete only when the stored owner
matches. -/
def release_lock (st : Store) (task_id agent_name : String) : Store :=
  match st.locks task_id with
  | some owner =>
    if owner = agent_name then
      { st with locks := fun k => if k = task_id then none else st.locks k }
    else st
  | none => st

/-- cache.py RedisStore.clear_goal_spending_cap. -/
def clear_goal_spending_cap (st : Store) : Store :=
  { st with capUntil := none }

/-- cache.py RedisStore.get_goal_spending_cap_until: an absent key gives
`None`; an expired deadline is cleared (a read has a write side effect)
and gives `None`. -/
def get_goal_spending_cap_until (st : Store) (now : Int) : Store × Option Int :=
  match st.capUntil with
  | none => (st, none)
  | some u => if u ≤ now then (clear_goal_spending_cap st, none) else (st, some u)

/-- cache.py RedisStore.set_goal_spending_cap_until: a past-or-present
deadline clears the key; otherwise the key is written only when it
strictly extends the currently stored (unexpired) deadline.  The key TTL
(`px`) coincides with `until - now` and is abstracted into the expiry
check performed on read. -/
def set_goal_spending_cap_until (st : Store) (now untilTs : Int) : Store :=
  if untilTs ≤ now then clear_goal_spending_cap st
  else
    let gp := get_goal_spending_cap_until st now
    match gp.2 with
    | some current =>
      if untilTs ≤ current then gp.1
      else { gp.1 with capUntil := some untilTs }
    | none => { gp.1 with capUntil := some untilTs }

/-- Candidate id tried by the collision loops of
create_remediation_task / create_recovery_task: the base id for attempt
0, otherwise the base id with a `_<suffix>` suffix. -/
def idCandidate (base : String) (k : Nat) : String :=
  base ++ "_" ++ strOfNat k

/-- The `while remediation_id in existing_ids` loop of cache.py, with
explicit fuel.  `existing.length + 1` candidates cannot all collide, so
the fallback branch is provably never reached. -/
def fresh_task_id_go (base : String) (existing : List String) : Nat → Nat → String
  | 0, k => idCandidate base k
  | fuel + 1, k =>
    if idCandidate base k ∈ existing then fresh_task_id_go base existing fuel (k + 1)
    else idCandidate base k

/-- Id chosen by the collision loop: the base id when free, else the first
free suffixed candidate. -/
def fresh_task_id (base : String) (existing : List String) : String :=
  if base ∈ existing then fresh_task_id_go base existing (existing.length + 1) 1
  else base

/-- Stable insertion (descending priority): the new node goes after every
node of greater-or-equal priority, as in Python's stable
`sorted(nodes, key=priority, reverse=True)`. -/
def insertDesc (x : TaskNode) : List TaskNode → List TaskNode
  | [] => [x]
  | y :: ys => if x.priority < y.priority then y :: insertDesc x ys else x :: y :: ys

/-- Stable sort by descending priority (ties keep insertion order), the
order in which list_ready_tasks scans nodes. -/
def sortDesc : List TaskNode → List TaskNode
  | [] => []
  | x :: xs => insertDesc x (sortDesc xs)

/-- Effective dependency list of a task: the JSON-decoded value of its
field in the `dag:<goal>:deps` hash (empty when absent). -/
def depsOf (st : Store) (task_id : String) : List String :=
  (st.deps.lookup task_id).getD []

/-- A dependency is satisfied when the state stored for it has one of the
completed statuses (an absent state defaults to READY, which is not
satisfied) - the test inside list_ready_tasks. -/
def statusSatisfied : TaskStatus → Bool
  | .dev_done => true
  | .qa_passed => true
  | .integrated => true
  | .done => true
  | _ => false

def satB (st : Store) (dep : String) : Bool :=
  statusSatisfied ((get_task_state st dep).getD ⟨.ready, none, none, none, [], none⟩).status

/-- Lease-expiry test of recover_stale_tasks:
`bool(state.lease_expires and state.lease_expires <= now)`. -/
def leaseExpiredB (s : TaskState) (now : Int) : Bool :=
  match s.lease_expires with
  | some t => decide (t ≤ now)
  | none => false

/-- The per-node recovery condition of recover_stale_tasks: status RUNNING
or CLAIMED, and the lock absent or the lease expired. -/
def staleCond (st : Store) (now : Int) (n : TaskNode) : Bool :=
  match get_task_state st n.id with
  | none => false
  | some s =>
    (s.status = .running ∨ s.status = .claimed)
    ∧ ((st.locks n.id).isNone ∨ leaseExpiredB s now)

/-- The state written back for a recovered stale task
(`state.model_copy(update=...)` with READY status and cleared
owner/lease). -/
def recovState (s : TaskState) : TaskState :=
  { s with status := .ready, owner := none, lease_expires := none }

/-- The state written back when list_ready_tasks promotes a BLOCKED
qualifier (`state.model_copy(update={"status": TaskStatus.READY})`). -/
def promoteState (s : TaskState) : TaskState :=
  { s with status := .ready }

/-- The loop body of cache.py RedisStore.recover_stale_tasks. -/
def recover_go (now : Int) : List TaskNode → Store → List String → Store × List String
  | [], cur, acc => (cur, acc)
  | n :: rest, cur, acc =>
    match get_task_state cur n.id with
    | none => recover_go now rest cur acc
    | some s =>
      if ¬(s.status = .running ∨ s.status = .claimed) then recover_go now rest cur acc
      else if ¬(lock_owner cur n.id).isNone ∧ ¬leaseExpiredB s now then
        recover_go now rest cur acc
      else
        recover_go now rest (update_task_state cur n.id (recovState s)) (acc ++ [n.id])

/-- cache.py RedisStore.recover_stale_tasks. -/
def recover_stale_tasks (st : Store) (goal_id : String) (now : Int) : Store × List String :=
  match read_dag st goal_id with
  | none => (st, [])
  | some dag => recover_go now dag.nodes st []

/-- The qualification a node must pass inside the scan of
list_ready_tasks, evaluated against a fixed store: a decodable state
whose status is READY or BLOCKED, with every dependency satisfied. -/
def qualB (st : Store) (dag : DagModel) (n : TaskNode) : Bool :=
  match get_task_state st n.id with
  | none => false
  | some s =>
    (s.status = .ready ∨ s.status = .blocked)
    ∧ (dag.dependencies_for n.id).all (fun d => satB st d)

/-- The loop body of cache.py RedisStore.list_ready_tasks (the scan over
nodes sorted by descending priority): DONE is skipped, a node with an
unsatisfied dependency is skipped, a BLOCKED qualifier is promoted to
READY and written back, qualifiers are appended to the result. -/
def scan_go (dag : DagModel) : List TaskNode → Store → List String → Store × List String
  | [], cur, acc => (cur, acc)
  | n :: rest, cur, acc =>
    match get_task_state cur n.id with
    | none => scan_go dag rest cur acc
    | some s =>
      if s.status = .done then scan_go dag rest cur acc
      else if ¬(dag.dependencies_for n.id).isEmpty
          ∧ ¬(dag.dependencies_for n.id).all (fun d => satB cur d) then
        scan_go dag rest cur acc
      else if s.status = .ready ∨ s.status = .blocked then
        if s.status = .blocked then
          scan_go dag rest (update_task_state cur n.id (promoteState s)) (acc ++ [n.id])
        else scan_go dag rest cur (acc ++ [n.id])
      else scan_go dag rest cur acc

/-- cache.py RedisStore.list_ready_tasks: empty for a missing DAG,
otherwise recover stale tasks and scan the nodes in descending-priority
order (stable in insertion order). -/
def list_ready_tasks (st : Store) (goal_id : String) (now : Int) : Store × List String :=
  match read_dag st goal_id with
  | none => (st, [])
  | some dag =>
    let rec_result := recover_stale_tasks st goal_id now
    scan_go dag (sortDesc dag.nodes) rec_result.1 []

/-- cache.py RedisStore.create_remediation_task: reads the DAG (raising,
modelled `none`, when absent), picks `<qa>__fix_<cycle>` suffixed until
free, writes the node and its empty dependency list, appends the new id
to the QA task's dependency list if absent, and initialises its state to
READY.  Returns the new id. -/
def create_remediation_task (st : Store) (goal_id qa_task_id dev_role : String)
    (review_cycle : Int) (priority : Int) : Option (Store × String) :=
  match read_dag st goal_id with
  | none => none
  | some dag =>
    let remediation_id := fresh_task_id (qa_task_id ++ "__fix_" ++ strOfInt review_cycle)
      (dag.nodes.map (fun n => n.id))
    let node : TaskNode :=
      { id := remediation_id
        title := "Address QA findings for " ++ qa_task_id ++ " (cycle " ++ strOfInt review_cycle ++ ")"
        priority := priority
        expected_artifacts := ["fix-report.md"]
        metadata :=
          [("phase", "development"), ("required_role", dev_role),
            ("parent_task_id", qa_task_id), ("review_cycle", strOfInt review_cycle),
            ("dev_role", dev_role)] }
    let st1 := { st with
      nodes := hset st.nodes remediation_id node
      deps := hset st.deps remediation_id [] }
    let qa_deps := (st1.deps.lookup qa_task_id).getD []
    let st2 :=
      if remediation_id ∈ qa_deps then st1
      else { st1 with deps := hset st1.deps qa_task_id (qa_deps ++ [remediation_id]) }
    some (update_task_state st2 remediation_id ⟨.ready, none, none, none, [], none⟩, remediation_id)

/-- cache.py RedisStore.create_recovery_task: like remediation but with the
`<task>__recover_<attempt>` base id and recovery metadata. -/
def create_recovery_task (st : Store) (goal_id blocked_task_id owner_role : String)
    (recovery_attempt : Int) (priority : Int) (title : String) : Option (Store × String) :=
  match read_dag st goal_id with
  | none => none
  | some dag =>
    let recovery_id := fresh_task_id (blocked_task_id ++ "__recover_" ++ strOfInt recovery_attempt)
      (dag.nodes.map (fun n => n.id))
    let node : TaskNode :=
      { id := recovery_id
        title := title
        priority := priority
        expected_artifacts := ["recovery-report.md"]
        metadata :=
          [("phase", "development"), ("required_role", owner_role),
            ("parent_task_id", blocked_task_id), ("recovery_for", blocked_task_id),
            ("recovery_attempt", strOfInt recovery_attempt)] }
    let st1 := { st with
      nodes := hset st.nodes recovery_id node
      deps := hset st.deps recovery_id [] }
    let blocked_deps := (st1.deps.lookup blocked_task_id).getD []
    let st2 :=
      if recovery_id ∈ blocked_deps then st1
      else { st1 with deps := hset st1.deps blocked_task_id (blocked_deps ++ [recovery_id]) }
    some (update_task_state st2 recovery_id ⟨.ready, none, none, none, [], none⟩, recovery_id)

/-- runtime.py AgentRuntime._elevate_task body for one node list: the first
node with the given id gets the parsed priority (an unparsable priority
is logged and ignored); iteration stops at the first match. -/
def elevate_nodes (l : List TaskNode) (task_id priority : String) : List TaskNode :=
  match l with
  | [] => []
  | n :: ns =>
    if n.id = task_id then
      (match pyInt? priority with
        | some p => { n with priority := p }
        | none => n) :: ns
    else n :: elevate_nodes ns task_id priority

/-- runtime.py AgentRuntime._elevate_task: read the DAG (return on a
missing one), update the matching node's priority in memory, and
persist the whole DAG again through write_dag. -/
def elevate_task (st : Store) (goal_id task_id priority : String) : Store :=
  match read_dag st goal_id with
  | none => st
  | some dag => write_dag st { dag with nodes := elevate_nodes dag.nodes task_id priority }

/-- llm.py TaskSelection. -/
structure TaskSelection where
  selected_task_id : Option String
  justification : String
  confidence : Rat := 1/2
deriving DecidableEq, Repr

/-- llm.py TaskExecutionResult. -/
structure TaskExecutionResult where
  status : String
  outputs : List String
  notes : String
  follow_ups : List String
deriving DecidableEq, Repr

/-- llm.py RecoveryDecision (`confidence` is a float in the source,
modelled as a rational). -/
structure RecoveryDecision where
  recoverable : Bool
  reason : String
  remediation_title : String
  remediation_steps : List String
  confidence : Rat := 0
deriving DecidableEq, Repr

/-- Outcome of LLMClient.execute_task as observed by the agent: either a
raised exception (with its text) or a returned result. -/
inductive ExecOutcome
  | raised (message : String)
  | returned (result : TaskExecutionResult)
deriving DecidableEq, Repr

/-- One oracle invocation, recorded so that temporal claims about which
LLM calls a cycle makes can be stated. -/
inductive OracleCall
  | select (ready : List String)
  | execute (task : String)
  | summarize (task : String)
  | assess (task : String)
deriving DecidableEq, Repr

/-- A deterministic script standing in for the LLM client: what
select_next_task, execute_task, summarize_task and assess_recovery would
return (assess returning `none` models a raised exception, which
_build_recovery_decision catches). -/
structure OracleScript where
  select : List TaskNode → TaskSelection
  execute : TaskNode → ExecOutcome
  summarize : TaskNode → TaskExecutionResult → String
  assess : TaskNode → String → Option RecoveryDecision

/-- `needle.data` occurs as a prefix of the character list. -/
def leadsWith : List Char → List Char → Bool
  | [], _ => true
  | _ :: _, [] => false
  | a :: as, b :: bs => a = b && leadsWith as bs

/-- Substring search on character lists. -/
def containsSub : List Char → List Char → Bool
  | _, [] => false
  | needle, c :: cs => leadsWith needle (c :: cs) || containsSub needle cs

/-- Case-insensitive containment of an ASCII literal, the model of
`re.compile(literal, re.IGNORECASE).search(text)` for the plain-text
alternatives of _RECOVERABLE_ERROR_PATTERNS.  An empty needle matches
everywhere, like an empty regex. -/
def ciContains (hay needle : String) : Bool :=
  (lowerAscii needle).data.isEmpty || containsSub (lowerAscii needle).data (lowerAscii hay).data

/-- `version` preceded by zero or more further `s` characters - the
`s*version` tail of the (buggy) `node\\s+version` alternative. -/
def sStarVersion : List Char → Bool
  | [] => false
  | c :: cs => leadsWith "version".data (c :: cs) || (c = 's' && sStarVersion cs)

/-- One `s` then `s*version`: the `s+version` tail. -/
def sPlusVersion : List Char → Bool
  | 's' :: cs => sStarVersion cs
  | _ => false

/-- Model of searching for the third alternative of the last pattern in
runtime.py, whose source is the raw string `node\\s+version`: because the
backslash is doubled inside a raw string, the regex matches a literal
backslash, then one or more letters `s`, then `version` - NOT
whitespace.  ("node\" is five characters ending in a backslash.) -/
def nodeBackslashSVersion (l : List Char) : Bool :=
  match l with
  | [] => false
  | _ :: cs => (leadsWith "node\\".data l && sPlusVersion (l.drop 5)) || nodeBackslashSVersion cs

/-- runtime.py AgentRuntime._deterministic_recovery_decision together with
_RECOVERABLE_ERROR_PATTERNS, checked in declaration order; a match
yields recoverable=true with confidence 1.0 and the pattern text in the
reason. -/
def deterministic_recovery_decision (error : String) : Option RecoveryDecision :=
  let hit : Option String :=
    if ciContains error "spending cap reached" then some "spending cap reached"
    else if ciContains error "rate limit" then some "rate limit"
    else if ciContains error "timed out" then some "timed out"
    else if ciContains error "timeout" then some "timeout"
    else if ciContains error "temporary" || ciContains error "temporarily" then
      some "temporar(?:y|ily)"
    else if ciContains error "network" then some "network"
    else if ciContains error "econnreset" || ciContains error "enotfound"
        || ciContains error "eai_again" then some "econnreset|enotfound|eai_again"
    else if ciContains error "command not found" || ciContains error "not found" then
      some "command not found|not found"
    else if ciContains error "unsupported engine" || ciContains error "requires node"
        || nodeBackslashSVersion (lowerAscii error).data then
      some "unsupported engine|requires node|node\\\\s+version"
    else none
  match hit with
  | some pat => some
      { recoverable := true
        reason := "Matched recoverable error pattern: " ++ pat
        remediation_title := "Repair environment/runtime prerequisites"
        remediation_steps := []
        confidence := 1 }
  | none => none

/-- runtime.py AgentRuntime.MAX_RECOVERY_ATTEMPTS. -/
def MAX_RECOVERY_ATTEMPTS : Int := 3

/-- runtime.py AgentRuntime.MIN_RECOVERY_CONFIDENCE. -/
def MIN_RECOVERY_CONFIDENCE : Rat := 3/4

/-- runtime.py AgentRuntime._record_failure: overwrite the state with
FAILED and the error text (memory side effects omitted). -/
def record_failure (st : Store) (node : TaskNode) (error : String) : Store :=
  update_task_state st node.id ⟨.failed, none, none, none, [], some error⟩

/-- runtime.py AgentRuntime._build_recovery_decision: deterministic rules
first; otherwise ask the oracle and accept only a recoverable verdict
whose confidence reaches MIN_RECOVERY_CONFIDENCE.  The reason string's
`%.2f`-formatted confidence text is abstracted; the decision logic is
exact.  Also returns the oracle calls issued. -/
def build_recovery_decision (node : TaskNode) (error : String) (oracle : OracleScript) :
    RecoveryDecision × List OracleCall :=
  match deterministic_recovery_decision error with
  | some d => (d, [])
  | none =>
    match oracle.assess node error with
    | none =>
      (⟨false, "Recovery classification unavailable", "", [], 0⟩, [.assess node.id])
    | some llm_decision =>
      let recoverable := llm_decision.recoverable
        && decide (MIN_RECOVERY_CONFIDENCE ≤ llm_decision.confidence)
      let reason := py_or_str llm_decision.reason "LLM classified recoverability"
      let reason := if recoverable then reason
        else reason ++ "; confidence below threshold 0.75"
      (⟨recoverable, reason, llm_decision.remediation_title,
        llm_decision.remediation_steps, llm_decision.confidence⟩, [.assess node.id])

/-- runtime.py AgentRuntime._record_failure_or_recovery: at or above the
attempt cap, mark FAILED; otherwise classify, and on a recoverable
verdict bump `recovery_attempts`, persist the node, create a recovery
task and block the original task.  `none` models an uncaught exception
(unparsable recovery_attempts metadata or a missing DAG). -/
def record_failure_or_recovery (st : Store) (goal_id agent_role : String) (node : TaskNode)
    (error : String) (oracle : OracleScript) : Option (Store × List OracleCall) :=
  match pyInt? ((node.metadata.lookup "recovery_attempts").getD "0") with
  | none => none
  | some attempts =>
    if MAX_RECOVERY_ATTEMPTS ≤ attempts then
      some (record_failure st node error, [])
    else
      let dc := build_recovery_decision node error oracle
      if ¬ dc.1.recoverable then some (record_failure st node error, dc.2)
      else
        let attempt := attempts + 1
        let md1 := hset node.metadata "recovery_attempts" (strOfInt attempt)
        let md2 := if dc.1.reason ≠ "" then
            hset md1 "last_recovery_reason" (dc.1.reason.take 300)
          else md1
        let node1 := { node with metadata := md2 }
        let st1 := update_task_node st node1
        let remediation_title := py_or_str (pyStrip dc.1.remediation_title)
          ("Recover blocked task " ++ node.id)
        match create_recovery_task st1 goal_id node.id
            ((node1.metadata.lookup "required_role").getD agent_role)
            attempt (max 0 (node.priority + 2)) remediation_title with
        | none => none
        | some (st2, recovery_id) =>
          let progress := "Recoverable failure on " ++ node.id
            ++ "; created remediation task " ++ recovery_id
            ++ " (attempt " ++ strOfInt attempt ++ "/3)."
          some (update_task_state st2 node.id
            ⟨.blocked, none, none, some progress, [], some (error.take 600)⟩, dc.2)

/-- runtime.py AgentRuntime._record_qa_failure: bump review_cycle, pick the
responsible developer role (escalating to manager_role past cycle 3),
persist the node, create the remediation task and block the QA task with
the summary as progress and empty artifacts.  `none` models an uncaught
exception (unparsable review_cycle or missing DAG). -/
def record_qa_failure (st : Store) (goal_id agent_role : String) (node : TaskNode)
    (summary : String) : Option Store :=
  match pyInt? ((node.metadata.lookup "review_cycle").getD "0") with
  | none => none
  | some cycle0 =>
    let cycle := cycle0 + 1
    let dev_role0 := py_or_str ((node.metadata.lookup "dev_role").getD "") agent_role
    let manager_role := (node.metadata.lookup "manager_role").getD ""
    let dev_role := if 3 < cycle ∧ manager_role ≠ "" then manager_role else dev_role0
    let node1 := { node with metadata := hset node.metadata "review_cycle" (strOfInt cycle) }
    let st1 := update_task_node st node1
    match create_remediation_task st1 goal_id node.id dev_role cycle
        (max 0 (node.priority + 1)) with
    | none => none
    | some (st2, _) =>
      some (update_task_state st2 node.id ⟨.blocked, none, none, some summary, [], none⟩)

/-- runtime.py AgentRuntime._record_result: QA failures branch to
_record_qa_failure, failed/blocked statuses branch to
_record_failure_or_recovery (with the notes, or the status when the
notes are empty, as error), and any other status applies the phase
transition table (phase defaults to "development" when the metadata key
is absent) with the summary as progress and the outputs as artifacts. -/
def record_result (st : Store) (goal_id agent_role : String) (node : TaskNode)
    (execution : TaskExecutionResult) (summary : String) (oracle : OracleScript) :
    Option (Store × List OracleCall) :=
  let execution_status := pyStripLower execution.status
  let phase := (node.metadata.lookup "phase").getD "development"
  if phase = "qa" ∧ (execution_status = "failed" ∨ execution_status = "qa_failed") then
    (record_qa_failure st goal_id agent_role node summary).map (fun st1 => (st1, []))
  else if execution_status = "failed" ∨ execution_status = "blocked" then
    record_failure_or_recovery st goal_id agent_role node
      (py_or_str execution.notes execution_status) oracle
  else
    let state : TaskState :=
      if phase = "development" then ⟨.dev_done, none, none, some summary, execution.outputs, none⟩
      else if phase = "qa" then ⟨.qa_passed, none, none, some summary, execution.outputs, none⟩
      else if phase = "integration" then ⟨.done, none, none, some summary, execution.outputs, none⟩
      else ⟨.done, none, none, some summary, execution.outputs, none⟩
    some (update_task_state st node.id state, [])

/-- runtime.py AgentRuntime._is_node_eligible: the required_role, when
present and non-empty, must equal the agent's role; the state must exist
and must not be terminal (DONE, FAILED, INTEGRATED). -/
def is_node_eligible (st : Store) (agent_role : String) (node : TaskNode) : Bool :=
  let role_ok :=
    match node.metadata.lookup "required_role" with
    | some r => r = "" ∨ r = agent_role
    | none => true
  role_ok &&
    (match get_task_state st node.id with
      | none => false
      | some s => ¬(s.status = .done ∨ s.status = .failed ∨ s.status = .integrated))

/-- runtime.py AgentRuntime._run_cycle: list ready tasks, filter to
eligible nodes, ask the oracle to select, re-check the node, acquire the
lease lock, mark the task RUNNING, execute, summarize and record - the
lock is released in a finally block.  `none` models an exception
escaping the cycle (the finally block still releases the lock before it
propagates and kills the run loop).  Returns the oracle calls made. -/
def run_cycle (st : Store) (goal_id : String) (now : Int) (agent_name agent_role : String)
    (lease_ttl : Int) (oracle : OracleScript) : Option (Store × List OracleCall) :=
  let lr := list_ready_tasks st goal_id now
  let st1 := lr.1
  if lr.2.isEmpty then some (st1, [])
  else
    let ready_nodes := lr.2.filterMap (fun tid =>
      match get_task_node st1 tid with
      | some n => if is_node_eligible st1 agent_role n then some n else none
      | none => none)
    if ready_nodes.isEmpty then some (st1, [])
    else
      let selection := oracle.select ready_nodes
      let calls0 := [OracleCall.select (ready_nodes.map (fun n => n.id))]
      match selection.selected_task_id with
      | none => some (st1, calls0)
      | some tid =>
        match get_task_node st1 tid with
        | none => some (st1, calls0)
        | some node =>
          if ¬ is_node_eligible st1 agent_role node then some (st1, calls0)
          else
            let al := acquire_lock st1 node.id agent_name
            if ¬ al.2 then some (st1, calls0)
            else
              let st2 := al.1
              let s0 := (get_task_state st2 node.id).getD ⟨.ready, none, none, none, [], none⟩
              let s1 := { s0 with
                status := .running, owner := some agent_name,
                lease_expires := some (now + lease_ttl) }
              let st3 := update_task_state st2 node.id s1
              match oracle.execute node with
              | .raised msg =>
                (record_failure_or_recovery st3 goal_id agent_role node msg oracle).map
                  (fun r => (release_lock r.1 node.id agent_name,
                    calls0 ++ [.execute node.id] ++ r.2))
              | .returned exec =>
                let summary := oracle.summarize node exec
                (record_result st3 goal_id agent_role node exec summary oracle).map
                  (fun r => (release_lock r.1 node.id agent_name,
                    calls0 ++ [.execute node.id, .summarize node.id] ++ r.2))

/-- Observable outcome of one iteration of the agent loop body. -/
structure IterOut where
  store : Store
  calls : List OracleCall
  ranWork : Bool
  reloaded : Bool

/-- The body of the while loop of runtime.py AgentRuntime.run after the
directive/heartbeat phase: read the goal spending-cap deadline (the read
clears an expired key), compute the backoff flag, and run the work phase
(including the periodic instruction reload, `reloadDue`) only when
neither paused nor in backoff.  The `_in_spending_cap_backoff` flag only
drives logging and is omitted. -/
def run_iteration (st : Store) (goal_id : String) (now : Int) (paused reloadDue : Bool)
    (agent_name agent_role : String) (lease_ttl : Int) (oracle : OracleScript) :
    Option IterOut :=
  let gp := get_goal_spending_cap_until st now
  let in_cap_backoff := match gp.2 with | some u => decide (now < u) | none => false
  if !paused && !in_cap_backoff then
    match run_cycle gp.1 goal_id now agent_name agent_role lease_ttl oracle with
    | some r => some ⟨r.1, r.2, true, reloadDue⟩
    | none => none
  else some ⟨gp.1, [], false, false⟩

/-- Every field of the nodes hash is keyed by its node's id (write paths
always write `hset(nodes_key, node.id, node_json)`). -/
def NodesKeyOk (st : Store) : Prop := ∀ p ∈ st.nodes, p.1 = p.2.id

/-- The nodes hash has no duplicate fields (true of any Redis hash). -/
def NodesNodup (st : Store) : Prop := (st.nodes.map Prod.fst).Nodup

/-- The deps hash has no duplicate fields. -/
def DepsNodup (st : Store) : Prop := (st.deps.map Prod.fst).Nodup

/-- Every deps-hash key and every dependency id names a stored node, so
that the pydantic validation performed when read_dag reconstructs the
DagModel succeeds. -/
def DagConsistent (st : Store) : Prop :=
  ∀ p ∈ st.deps, p.1 ∈ st.nodes.map Prod.fst ∧ ∀ d ∈ p.2, d ∈ st.nodes.map Prod.fst

instance (st : Store) : Decidable (NodesKeyOk st) := by
  unfold NodesKeyOk
  infer_instance

instance (st : Store) : Decidable (NodesNodup st) := by
  unfold NodesNodup
  infer_instance

instance (st : Store) : Decidable (DepsNodup st) := by
  unfold DepsNodup
  infer_instance

instance (st : Store) : Decidable (DagConsistent st) := by
  unfold DagConsistent
  infer_instance

/-- Oracle script used by concrete witnesses (never actually consulted on
the evaluated paths, or returning fixed values). -/
def oracleNull : OracleScript :=
  { select := fun _ => ⟨none, "", 1/2⟩
    execute := fun _ => .raised ""
    summarize := fun _ _ => ""
    assess := fun _ _ => none }

/-- Node without a `phase` metadata key, for the C3 counterexample. -/
def nodeC3 : TaskNode := ⟨"n1", "Initial task", 1, [], []⟩

/-- Execution result with oracle status done, for the C3 counterexample. -/
def execC3 : TaskExecutionResult := ⟨"done", ["out.txt"], "", []⟩

/-- Minimal store holding only the C3 node. -/
def stC3 : Store :=
  { nodes := [("n1", nodeC3)]
    deps := [("n1", [])]
    states := fun t => if t = "n1" then some (serialize_state ⟨.ready, none, none, none, [], none⟩)
      else none
    locks := fun _ => none
    capUntil := none }

/-- Node with phase qa, for the C3 witness. -/
def nodeC3qa : TaskNode := ⟨"n2", "QA task", 1, [], [("phase", "qa")]⟩

/-- Node at the recovery-attempt cap, for the C6 witness. -/
def nodeC6 : TaskNode := ⟨"n1", "Initial task", 1, [], [("recovery_attempts", "3")]⟩

/-- Empty store with a future spending-cap deadline, for C8/C9. -/
def stC9 : Store :=
  { nodes := [], deps := [], states := fun _ => none, locks := fun _ => none
    capUntil := some 100 }

/-- Empty store without a spending-cap deadline. -/
def stNoCap : Store :=
  { nodes := [], deps := [], states := fun _ => none, locks := fun _ => none
    capUntil := none }

/-- Node used by the C1 counterexample and witness. -/
def nodeC1 : TaskNode := ⟨"n1", "Initial task", 1, [], []⟩

/-- Store holding a single DEV_DONE task, for claim C1. -/
def stC1 : Store :=
  { nodes := [("n1", nodeC1)]
    deps := [("n1", [])]
    states := fun t => if t = "n1" then
        some (serialize_state ⟨.dev_done, none, none, some "built", ["a.txt"], none⟩)
      else none
    locks := fun _ => none
    capUntil := none }

/-- Nodes and store for the C2 witness: A is DEV_DONE (priority 1), B is
BLOCKED behind A (priority 2), C is READY (priority 2). -/
def nodeA2 : TaskNode := ⟨"A", "Build", 1, [], []⟩

def nodeB2 : TaskNode := ⟨"B", "Review", 2, [], []⟩

def nodeC2 : TaskNode := ⟨"C", "Docs", 2, [], []⟩

def stC2 : Store :=
  { nodes := [("A", nodeA2), ("B", nodeB2), ("C", nodeC2)]
    deps := [("A", []), ("B", ["A"]), ("C", [])]
    states := fun t =>
      if t = "A" then some (serialize_state ⟨.dev_done, none, none, none, [], none⟩)
      else if t = "B" then some (serialize_state ⟨.blocked, none, none, none, [], none⟩)
      else if t = "C" then some (serialize_state ⟨.ready, none, none, none, [], none⟩)
      else none
    locks := fun _ => none
    capUntil := none }

/-- The DAG read_dag reconstructs from stC2. -/
def dagC2 : DagModel := ⟨"g", [nodeA2, nodeB2, nodeC2], [("A", "B")]⟩

/-- Nodes and store for claim C5: A is READY; B is RUNNING with an
expired lease (and no lock) and depends on A. -/
def nodeA5 : TaskNode := ⟨"A", "Build", 1, [], []⟩

def nodeB5 : TaskNode := ⟨"B", "Deploy", 1, [], []⟩

def stC5 : Store :=
  { nodes := [("A", nodeA5), ("B", nodeB5)]
    deps := [("A", []), ("B", ["A"])]
    states := fun t =>
      if t = "A" then some (serialize_state ⟨.ready, none, none, none, [], none⟩)
      else if t = "B" then
        some (serialize_state ⟨.running, some "agent-x", some 0, none, [], none⟩)
      else none
    locks := fun _ => none
    capUntil := none }

/-- The DAG read_dag reconstructs from stC5. -/
def dagC5 : DagModel := ⟨"g", [nodeA5, nodeB5], [("A", "B")]⟩

/-- QA-phase node for the C4 witness. -/
def nodeC4 : TaskNode :=
  ⟨"qa1", "QA review", 2, [], [("phase", "qa"), ("review_cycle", "1"), ("dev_role", "dev")]⟩

/-- Failed execution result for the C4 witness. -/
def execC4 : TaskExecutionResult := ⟨"failed", [], "issues", []⟩

/-- Store holding only the C4 QA node. -/
def stC4 : Store :=
  { nodes := [("qa1", nodeC4)]
    deps := []
    states := fun _ => none
    locks := fun _ => none
    capUntil := none }

theorem valDigits_digitsRevF : ∀ (fuel n : Nat), n ≤ fuel →
    valDigits (digitsRevF fuel n) = n := by
  intro fuel
  induction fuel with
  | zero =>
    intro n hn
    have : n = 0 := by omega
    subst this
    simp [digitsRevF, valDigits]
  | succ f ih =>
    intro n hn
    rw [digitsRevF]
    split
    · simp [valDigits]
    · rename_i h
      have hle : n / 10 ≤ f := by
        have := Nat.div_lt_self (show 0 < n by omega) (show 1 < 10 by omega)
        omega
      simp [valDigits, ih _ hle]
      omega

theorem valDigits_digitsRev (n : Nat) : valDigits (digitsRev n) = n :=
  valDigits_digitsRevF n n le_rfl

theorem digitsRev_injective : Function.Injective digitsRev := by
  intro a b h
  have := valDigits_digitsRev a
  rw [h, valDigits_digitsRev] at this
  omega

theorem digitsRevF_lt10 : ∀ (fuel n : Nat), ∀ d ∈ digitsRevF fuel n, d < 10 := by
  intro fuel
  induction fuel with
  | zero =>
    intro n d hd
    simp [digitsRevF] at hd
    omega
  | succ f ih =>
    intro n d hd
    rw [digitsRevF] at hd
    split at hd
    · rename_i h
      simp at hd
      omega
    · simp at hd
      rcases hd with hd | hd
      · omega
      · exact ih _ d hd

theorem digitsRev_lt10 (n : Nat) : ∀ d ∈ digitsRev n, d < 10 :=
  digitsRevF_lt10 n n

theorem digitsRev_ne_nil (n : Nat) : digitsRev n ≠ [] := by
  unfold digitsRev
  cases n with
  | zero => simp [digitsRevF]
  | succ m =>
    rw [digitsRevF]
    split <;> simp

theorem decDigitChar_inj : ∀ d < 10, ∀ e < 10, decDigitChar d = decDigitChar e → d = e := by
  decide

theorem map_decDigitChar_inj :
    ∀ (l1 l2 : List Nat), (∀ d ∈ l1, d < 10) → (∀ d ∈ l2, d < 10) →
      l1.map decDigitChar = l2.map decDigitChar → l1 = l2 := by
  intro l1
  induction l1 with
  | nil =>
    intro l2 _ _ h
    cases l2 with
    | nil => rfl
    | cons b bs => simp at h
  | cons a as ih =>
    intro l2 h1 h2 h
    cases l2 with
    | nil => simp at h
    | cons b bs =>
      simp only [List.map_cons, List.cons.injEq] at h
      have ha : a < 10 := h1 a (by simp)
      have hb : b < 10 := h2 b (by simp)
      have hab : a = b := decDigitChar_inj a ha b hb h.1
      have hrest : as = bs :=
        ih bs (fun d hd => h1 d (by simp [hd])) (fun d hd => h2 d (by simp [hd])) h.2
      rw [hab, hrest]

theorem strOfNat_injective : Function.Injective strOfNat := by
  intro a b h
  unfold strOfNat at h
  have hdata : ((digitsRev a).reverse).map decDigitChar
      = ((digitsRev b).reverse).map decDigitChar := by
    have := congrArg String.data h
    simpa using this
  have hrev : (digitsRev a).reverse = (digitsRev b).reverse :=
    map_decDigitChar_inj _ _
      (fun d hd => digitsRev_lt10 a d (by simpa using hd))
      (fun d hd => digitsRev_lt10 b d (by simpa using hd)) hdata
  have : digitsRev a = digitsRev b := by
    have := congrArg List.reverse hrev
    simpa using this
  exact digitsRev_injective this

theorem strOfNat_data_ne_nil (n : Nat) : (strOfNat n).data ≠ [] := by
  unfold strOfNat
  simp [digitsRev_ne_nil n]

theorem statusOfStr_statusStr (st : TaskStatus) : statusOfStr (statusStr st) = some st := by
  cases st <;> rfl

theorem ds_status_serialize (s : TaskState) :
    ds_status (serialize_state s) = some s.status := by
  unfold ds_status serialize_state
  cases s.owner <;> cases s.lease_expires <;> cases s.progress <;> cases s.last_error <;>
    simp [List.lookup, statusOfStr_statusStr]

theorem ds_owner_serialize (s : TaskState) :
    ds_opt_str (serialize_state s) "owner" = some (py_or_none s.owner) := by
  unfold ds_opt_str serialize_state py_or_none
  cases s.owner <;> cases s.lease_expires <;> cases s.progress <;> cases s.last_error <;>
    simp [List.lookup]

theorem ds_lease_serialize (s : TaskState) :
    ds_lease (serialize_state s) = some s.lease_expires := by
  unfold ds_lease serialize_state
  cases s.owner <;> cases s.lease_expires <;> cases s.progress <;> cases s.last_error <;>
    simp [List.lookup]

theorem ds_progress_serialize (s : TaskState) :
    ds_opt_str (serialize_state s) "progress" = some (py_or_none s.progress) := by
  unfold ds_opt_str serialize_state py_or_none
  cases s.owner <;> cases s.lease_expires <;> cases s.progress <;> cases s.last_error <;>
    simp [List.lookup]

theorem ds_artifacts_serialize (s : TaskState) :
    ds_artifacts (serialize_state s) = some s.artifacts := by
  unfold ds_artifacts serialize_state
  cases s.owner <;> cases s.lease_expires <;> cases s.progress <;> cases s.last_error <;>
    simp [List.lookup]

theorem ds_last_error_serialize (s : TaskState) :
    ds_opt_str (serialize_state s) "last_error" = some (py_or_none s.last_error) := by
  unfold ds_opt_str serialize_state py_or_none
  cases s.owner <;> cases s.lease_expires <;> cases s.progress <;> cases s.last_error <;>
    simp [List.lookup]

/-- Writing a state and reading it back yields the state with empty
optional strings collapsed to null. -/
theorem deserialize_serialize (s : TaskState) :
    deserialize_state (serialize_state s) = some (normalize_state s) := by
  unfold deserialize_state normalize_state
  rw [ds_status_serialize, ds_owner_serialize, ds_lease_serialize,
    ds_progress_serialize, ds_artifacts_serialize, ds_last_error_serialize]
  rfl

theorem py_or_none_ne_empty (v : Option String) : py_or_none v ≠ some "" := by
  unfold py_or_none
  cases v with
  | none => simp
  | some s =>
    by_cases h : s = "" <;> simp [h]

theorem ds_opt_str_ne_empty (raw : List (String × RVal)) (key : String) (o : Option String)
    (h : ds_opt_str raw key = some o) : o ≠ some "" := by
  unfold ds_opt_str at h
  cases hv : raw.lookup key with
  | none =>
    rw [hv] at h
    simp at h
    simp [← h]
  | some v =>
    rw [hv] at h
    cases v with
    | str sv =>
      simp only [Option.some.injEq] at h
      by_cases hsv : sv = ""
      · rw [if_pos hsv] at h
        simp [← h]
      · rw [if_neg hsv] at h
        rw [← h]
        simp
        intro hc
        exact hsv hc
    | time t => simp at h
    | jlist l => simp at h

/-- Inversion of a successful deserialisation into its field decoders. -/
theorem deserialize_fields (raw : List (String × RVal)) (s : TaskState)
    (h : deserialize_state raw = some s) :
    ds_status raw = some s.status
    ∧ ds_opt_str raw "owner" = some s.owner
    ∧ ds_lease raw = some s.lease_expires
    ∧ ds_opt_str raw "progress" = some s.progress
    ∧ ds_artifacts raw = some s.artifacts
    ∧ ds_opt_str raw "last_error" = some s.last_error := by
  unfold deserialize_state at h
  cases hst : ds_status raw with
  | none => rw [hst] at h; simp at h
  | some status =>
  cases how : ds_opt_str raw "owner" with
  | none => rw [hst, how] at h; simp at h
  | some owner =>
  cases hle : ds_lease raw with
  | none => rw [hst, how, hle] at h; simp at h
  | some lease =>
  cases hpr : ds_opt_str raw "progress" with
  | none => rw [hst, how, hle, hpr] at h; simp at h
  | some progress =>
  cases har : ds_artifacts raw with
  | none => rw [hst, how, hle, hpr, har] at h; simp at h
  | some artifacts =>
  cases hla : ds_opt_str raw "last_error" with
  | none => rw [hst, how, hle, hpr, har, hla] at h; simp at h
  | some last_error =>
    rw [hst, how, hle, hpr, har, hla] at h
    have hs : TaskState.mk status owner lease progress artifacts last_error = s := by
      simpa using h
    subst hs
    exact ⟨rfl, rfl, rfl, rfl, rfl, rfl⟩

/-- Any state produced by deserialisation is normalized (no empty-string
optional fields). -/
theorem deserialize_normalized (raw : List (String × RVal)) (s : TaskState)
    (h : deserialize_state raw = some s) : NormalizedState s := by
  obtain ⟨_, how, _, hpr, _, hla⟩ := deserialize_fields raw s h
  exact ⟨ds_opt_str_ne_empty raw "owner" s.owner how,
    ds_opt_str_ne_empty raw "progress" s.progress hpr,
    ds_opt_str_ne_empty raw "last_error" s.last_error hla⟩

theorem normalize_of_normalized (s : TaskState) (h : NormalizedState s) :
    normalize_state s = s := by
  obtain ⟨h1, h2, h3⟩ := h
  have f1 : py_or_none s.owner = s.owner := by
    unfold py_or_none
    cases ho : s.owner with
    | none => rfl
    | some o =>
      rw [ho] at h1
      have : o ≠ "" := fun hc => h1 (by rw [hc])
      simp [this]
  have f2 : py_or_none s.progress = s.progress := by
    unfold py_or_none
    cases ho : s.progress with
    | none => rfl
    | some o =>
      rw [ho] at h2
      have : o ≠ "" := fun hc => h2 (by rw [hc])
      simp [this]
  have f3 : py_or_none s.last_error = s.last_error := by
    unfold py_or_none
    cases ho : s.last_error with
    | none => rfl
    | some o =>
      rw [ho] at h3
      have : o ≠ "" := fun hc => h3 (by rw [hc])
      simp [this]
  unfold normalize_state
  rw [f1, f2, f3]

theorem lookup_hset_self {α : Type} (l : List (String × α)) (k : String) (v : α) :
    (hset l k v).lookup k = some v := by
  unfold hset
  by_cases hany : l.any (fun p => p.1 = k)
  · rw [if_pos hany]
    induction l with
    | nil => simp at hany
    | cons p ps ih =>
      by_cases hp : p.1 = k
      · simp only [List.map_cons, if_pos hp]
        rw [List.lookup]
        simp
      · simp only [List.any_cons, Bool.or_eq_true, decide_eq_true_eq] at hany
        rcases hany with hany | hany
        · exact absurd hany hp
        · simp only [List.map_cons, if_neg hp]
          rw [List.lookup]
          have : (k == p.1) = false := by
            simp
            exact fun hc => hp hc.symm
          rw [this]
          simp only [cond_false]
          exact ih (by simpa using hany)
  · rw [if_neg hany]
    induction l with
    | nil => simp [List.lookup]
    | cons p ps ih =>
      simp only [List.any_cons, Bool.or_eq_true, decide_eq_true_eq, not_or] at hany
      rw [List.cons_append, List.lookup]
      have : (k == p.1) = false := by
        simp
        exact fun hc => hany.1 hc.symm
      rw [this]
      simp only [cond_false]
      exact ih (by simpa using hany.2)

theorem lookup_hset_other {α : Type} (l : List (String × α)) (k k' : String) (v : α)
    (h : k' ≠ k) : (hset l k v).lookup k' = l.lookup k' := by
  unfold hset
  by_cases hany : l.any (fun p => p.1 = k)
  · rw [if_pos hany]
    clear hany
    induction l with
    | nil => simp
    | cons p ps ih =>
      by_cases hp : p.1 = k
      · simp only [List.map_cons, if_pos hp]
        rw [List.lookup, List.lookup]
        have h1 : (k' == k) = false := by simp; exact h
        have h2 : (k' == p.1) = false := by simp [hp]; exact h
        rw [h1, h2]
        simp only [cond_false]
        exact ih
      · simp only [List.map_cons, if_neg hp]
        rw [List.lookup, List.lookup]
        cases hpk : (k' == p.1) <;> simp only [cond_false, cond_true]
        exact ih
  · rw [if_neg hany]
    clear hany
    induction l with
    | nil =>
      rw [List.nil_append, List.lookup, List.lookup]
      have : (k' == k) = false := by simp; exact h
      rw [this]
      rfl
    | cons p ps ih =>
      rw [List.cons_append, List.lookup, List.lookup]
      cases hpk : (k' == p.1) <;> simp only [cond_false, cond_true]
      exact ih

theorem hset_keys {α : Type} (l : List (String × α)) (k : String) (v : α)
    (h : l.any (fun p => p.1 = k)) : (hset l k v).map Prod.fst = l.map Prod.fst := by
  unfold hset
  rw [if_pos h, List.map_map]
  apply List.map_congr_left
  intro p _
  by_cases hpk : p.1 = k <;> simp [Function.comp, hpk]

theorem get_update_self (st : Store) (t : String) (s : TaskState) :
    get_task_state (update_task_state st t s) t = some (normalize_state s) := by
  unfold get_task_state update_task_state
  simp [deserialize_serialize]

theorem get_update_other (st : Store) (t k : String) (s : TaskState) (h : k ≠ t) :
    get_task_state (update_task_state st t s) k = get_task_state st k := by
  unfold get_task_state update_task_state
  simp [h]

theorem get_normalized (st : Store) (t : String) (s : TaskState)
    (h : get_task_state st t = some s) : NormalizedState s := by
  unfold get_task_state at h
  cases hv : st.states t with
  | none => rw [hv] at h; simp at h
  | some raw =>
    rw [hv] at h
    exact deserialize_normalized raw s h

theorem idCandidate_inj (base : String) : Function.Injective (idCandidate base) := by
  intro a b h
  unfold idCandidate at h
  have hdata := congrArg String.data h
  simp only [String.data_append] at hdata
  have h1 := List.append_cancel_left hdata
  have h2 : (strOfNat a).data = (strOfNat b).data := by simpa using h1
  exact strOfNat_injective (String.ext h2)

theorem base_ne_idCandidate (base : String) (k : Nat) : base ≠ idCandidate base k := by
  intro h
  have hdata := congrArg String.data h
  unfold idCandidate at hdata
  simp only [String.data_append] at hdata
  have hlen := congrArg List.length hdata
  simp only [List.length_append] at hlen
  have : (strOfNat k).data ≠ [] := strOfNat_data_ne_nil k
  have hpos : 0 < (strOfNat k).data.length := List.length_pos.mpr this
  have : ("_" : String).data.length = 1 := rfl
  omega

theorem fresh_task_id_go_spec (base : String) (existing : List String) :
    ∀ (fuel k : Nat), (∃ i, i < fuel ∧ idCandidate base (k + i) ∉ existing) →
      fresh_task_id_go base existing fuel k ∉ existing
      ∧ ∃ j, k ≤ j ∧ fresh_task_id_go base existing fuel k = idCandidate base j := by
  intro fuel
  induction fuel with
  | zero =>
    intro k ⟨i, hi, _⟩
    omega
  | succ f ih =>
    intro k ⟨i, hi, hfree⟩
    rw [fresh_task_id_go]
    by_cases hk : idCandidate base k ∈ existing
    · rw [if_pos hk]
      have hi0 : i ≠ 0 := by
        intro h0
        rw [h0] at hfree
        simp at hfree
        exact hfree hk
      have : ∃ i', i' < f ∧ idCandidate base (k + 1 + i') ∉ existing := by
        refine ⟨i - 1, by omega, ?_⟩
        have : k + 1 + (i - 1) = k + i := by omega
        rw [this]
        exact hfree
      obtain ⟨h1, j, hj, h2⟩ := ih (k + 1) this
      exact ⟨h1, j, by omega, h2⟩
    · rw [if_neg hk]
      exact ⟨hk, k, le_refl k, rfl⟩

theorem exists_free_candidate (base : String) (existing : List String) :
    ∃ i, i < existing.length + 1 ∧ idCandidate base (1 + i) ∉ existing := by
  by_contra hcon
  push_neg at hcon
  set N := existing.length with hN
  set C : List String := (List.range (N + 1)).map (fun i => idCandidate base (1 + i)) with hC
  have hnod : C.Nodup := by
    rw [hC]
    apply List.Nodup.map
    · intro a b hab
      have := idCandidate_inj base hab
      omega
    · exact List.nodup_range _
  have hsub : C ⊆ existing := by
    intro c hc
    rw [hC] at hc
    simp only [List.mem_map, List.mem_range] at hc
    obtain ⟨i, hi, rfl⟩ := hc
    exact hcon i hi
  have hle : C.length ≤ existing.length :=
    (List.subperm_of_subset hnod hsub).length_le
  have : C.length = N + 1 := by simp [hC]
  omega

/-- The id chosen by the collision loop is fresh, and is the base id or a
suffixed variant of it. -/
theorem fresh_task_id_spec (base : String) (existing : List String) :
    fresh_task_id base existing ∉ existing
    ∧ (fresh_task_id base existing = base
        ∨ ∃ k, 1 ≤ k ∧ fresh_task_id base existing = idCandidate base k) := by
  unfold fresh_task_id
  by_cases hb : base ∈ existing
  · rw [if_pos hb]
    obtain ⟨i, hi, hfree⟩ := exists_free_candidate base existing
    have := fresh_task_id_go_spec base existing (existing.length + 1) 1 ⟨i, hi, hfree⟩
    exact ⟨this.1, Or.inr this.2⟩
  · rw [if_neg hb]
    exact ⟨hb, Or.inl rfl⟩

theorem insertDesc_perm (x : TaskNode) (l : List TaskNode) :
    (insertDesc x l).Perm (x :: l) := by
  induction l with
  | nil => simp [insertDesc]
  | cons y ys ih =>
    rw [insertDesc]
    split
    · exact (ih.cons y).trans (List.Perm.swap x y ys)
    · exact List.Perm.refl _

theorem sortDesc_perm (l : List TaskNode) : (sortDesc l).Perm l := by
  induction l with
  | nil => simp [sortDesc]
  | cons x xs ih =>
    rw [sortDesc]
    exact (insertDesc_perm x (sortDesc xs)).trans (ih.cons x)

theorem insertDesc_pairwise (x : TaskNode) (l : List TaskNode)
    (h : l.Pairwise (fun a b => b.priority ≤ a.priority)) :
    (insertDesc x l).Pairwise (fun a b => b.priority ≤ a.priority) := by
  induction l with
  | nil => simp [insertDesc]
  | cons y ys ih =>
    rw [insertDesc]
    rw [List.pairwise_cons] at h
    split
    · rename_i hlt
      rw [List.pairwise_cons]
      constructor
      · intro a ha
        have := (insertDesc_perm x ys).mem_iff.mp ha
        simp at this
        rcases this with rfl | hmem
        · omega
        · exact h.1 a hmem
      · exact ih h.2
    · rename_i hge
      rw [List.pairwise_cons]
      constructor
      · intro a ha
        simp at ha
        rcases ha with rfl | hmem
        · omega
        · have := h.1 a hmem
          omega
      · rw [List.pairwise_cons]
        exact h

theorem sortDesc_pairwise (l : List TaskNode) :
    (sortDesc l).Pairwise (fun a b => b.priority ≤ a.priority) := by
  induction l with
  | nil => simp [sortDesc]
  | cons x xs ih =>
    rw [sortDesc]
    exact insertDesc_pairwise x (sortDesc xs) ih

theorem insertDesc_filter_eq (x : TaskNode) (l : List TaskNode) (p : Int) :
    (insertDesc x l).filter (fun n => n.priority = p)
      = (if x.priority = p then [x] else []) ++ l.filter (fun n => n.priority = p) := by
  induction l with
  | nil =>
    rw [insertDesc]
    by_cases hx : x.priority = p <;> simp [hx]
  | cons y ys ih =>
    rw [insertDesc]
    split
    · rename_i hlt
      by_cases hy : y.priority = p
      · have hx : ¬ x.priority = p := by omega
        simp only [List.filter_cons, ih]
        simp [hx, hy]
      · simp only [List.filter_cons, ih]
        simp [hy]
    · rename_i hge
      by_cases hx : x.priority = p <;> simp [List.filter_cons, hx]

/-- Stability of the descending sort: within one priority level the sorted
order is the insertion order. -/
theorem sortDesc_filter_eq (l : List TaskNode) (p : Int) :
    (sortDesc l).filter (fun n => n.priority = p) = l.filter (fun n => n.priority = p) := by
  induction l with
  | nil => simp [sortDesc]
  | cons x xs ih =>
    rw [sortDesc, insertDesc_filter_eq, ih]
    by_cases hx : x.priority = p <;> simp [List.filter_cons, hx]

theorem update_fields (st : Store) (t : String) (s : TaskState) :
    (update_task_state st t s).locks = st.locks
    ∧ (update_task_state st t s).nodes = st.nodes
    ∧ (update_task_state st t s).deps = st.deps
    ∧ (update_task_state st t s).capUntil = st.capUntil :=
  ⟨rfl, rfl, rfl, rfl⟩

theorem normalized_recovState (s : TaskState) (h : NormalizedState s) :
    NormalizedState (recovState s) := by
  obtain ⟨_, h2, h3⟩ := h
  exact ⟨by simp [recovState], h2, h3⟩

theorem normalized_promote (s : TaskState) (h : NormalizedState s) :
    NormalizedState (promoteState s) := by
  obtain ⟨h1, h2, h3⟩ := h
  exact ⟨h1, h2, h3⟩

theorem get_update_self_normalized (st : Store) (t : String) (s : TaskState)
    (h : NormalizedState s) :
    get_task_state (update_task_state st t s) t = some s := by
  rw [get_update_self, normalize_of_normalized s h]

theorem staleCond_none (st : Store) (now : Int) (n : TaskNode)
    (h : get_task_state st n.id = none) : staleCond st now n = false := by
  unfold staleCond
  rw [h]

theorem staleCond_iff (st : Store) (now : Int) (n : TaskNode) (s : TaskState)
    (h : get_task_state st n.id = some s) :
    staleCond st now n = true
      ↔ ((s.status = .running ∨ s.status = .claimed)
          ∧ ((st.locks n.id).isNone = true ∨ leaseExpiredB s now = true)) := by
  unfold staleCond
  rw [h]
  simp

theorem recover_go_spec (stref : Store) (now : Int) :
    ∀ (l : List TaskNode) (cur : Store) (acc : List String),
    (∀ n ∈ l, get_task_state cur n.id = get_task_state stref n.id) →
    cur.locks = stref.locks →
    (l.map (fun n => n.id)).Nodup →
    (recover_go now l cur acc).2
        = acc ++ (l.filter (fun n => staleCond stref now n)).map (fun n => n.id)
    ∧ (∀ i, (∀ n ∈ l, n.id ≠ i) →
        get_task_state (recover_go now l cur acc).1 i = get_task_state cur i)
    ∧ (∀ n ∈ l, staleCond stref now n = false →
        get_task_state (recover_go now l cur acc).1 n.id = get_task_state cur n.id)
    ∧ (∀ n ∈ l, ∀ s, get_task_state stref n.id = some s → staleCond stref now n = true →
        get_task_state (recover_go now l cur acc).1 n.id = some (recovState s))
    ∧ (recover_go now l cur acc).1.locks = cur.locks
    ∧ (recover_go now l cur acc).1.nodes = cur.nodes
    ∧ (recover_go now l cur acc).1.deps = cur.deps
    ∧ (recover_go now l cur acc).1.capUntil = cur.capUntil := by
  intro l
  induction l with
  | nil =>
    intro cur acc _ _ _
    refine ⟨by simp [recover_go], ?_, ?_, ?_, rfl, rfl, rfl, rfl⟩ <;> simp [recover_go]
  | cons n rest ih =>
    intro cur acc hcur hlocks hnodup
    have hn : get_task_state cur n.id = get_task_state stref n.id := hcur n (by simp)
    have hnodup_rest : (rest.map (fun n => n.id)).Nodup := by
      simpa using hnodup.of_cons
    have hhead : n.id ∉ rest.map (fun n => n.id) := by
      have := hnodup
      simp only [List.map_cons, List.nodup_cons] at this
      exact this.1
    have hne_rest : ∀ m ∈ rest, m.id ≠ n.id := by
      intro m hm hc
      exact hhead (by rw [← hc]; exact List.mem_map_of_mem _ hm)
    rw [recover_go]
    cases hsn : get_task_state stref n.id with
    | none =>
      rw [hn, hsn]
      have hstale : staleCond stref now n = false := staleCond_none stref now n hsn
      obtain ⟨c1, c2, c3, c4, c5, c6, c7, c8⟩ :=
        ih cur acc (fun m hm => hcur m (by simp [hm])) hlocks hnodup_rest
      refine ⟨?_, ?_, ?_, ?_, c5, c6, c7, c8⟩
      · rw [c1, List.filter_cons_of_neg (by simp [hstale])]
      · intro i hi
        exact c2 i (fun m hm => hi m (by simp [hm]))
      · intro m hm hms
        rcases List.mem_cons.mp hm with rfl | hm'
        · exact c2 m.id (fun m' hm' => hne_rest m' hm')
        · exact c3 m hm' hms
      · intro m hm s hs hms
        rcases List.mem_cons.mp hm with rfl | hm'
        · rw [hsn] at hs; exact absurd hs (by simp)
        · exact c4 m hm' s hs hms
    | some s =>
      rw [hn, hsn]
      simp only
      by_cases hrun : s.status = TaskStatus.running ∨ s.status = TaskStatus.claimed
      · by_cases hlk : ¬(lock_owner cur n.id).isNone ∧ ¬leaseExpiredB s now
        · -- lock held and lease not expired: skipped
          rw [if_neg (not_not.mpr hrun), if_pos hlk]
          have hstale : staleCond stref now n = false := by
            rw [← Bool.not_eq_true, staleCond_iff stref now n s hsn]
            rintro ⟨-, h2 | h2⟩
            · apply hlk.1
              unfold lock_owner
              rw [hlocks]
              exact h2
            · exact hlk.2 h2
          obtain ⟨c1, c2, c3, c4, c5, c6, c7, c8⟩ :=
            ih cur acc (fun m hm => hcur m (by simp [hm])) hlocks hnodup_rest
          refine ⟨?_, ?_, ?_, ?_, c5, c6, c7, c8⟩
          · rw [c1, List.filter_cons_of_neg (by simp [hstale])]
          · intro i hi
            exact c2 i (fun m hm => hi m (by simp [hm]))
          · intro m hm hms
            rcases List.mem_cons.mp hm with rfl | hm'
            · exact c2 m.id (fun m' hm' => hne_rest m' hm')
            · exact c3 m hm' hms
          · intro m hm s' hs hms
            rcases List.mem_cons.mp hm with rfl | hm'
            · rw [hstale] at hms; simp at hms
            · exact c4 m hm' s' hs hms
        · -- stale: recovered
          rw [if_neg (not_not.mpr hrun), if_neg hlk]
          have hor : (stref.locks n.id).isNone = true ∨ leaseExpiredB s now = true := by
            by_cases ha : (lock_owner cur n.id).isNone = true
            · left
              unfold lock_owner at ha
              rw [hlocks] at ha
              exact ha
            · right
              by_contra hb
              exact hlk ⟨ha, fun hc => hb hc⟩
          have hstale : staleCond stref now n = true :=
            (staleCond_iff stref now n s hsn).mpr ⟨hrun, hor⟩
          have hsnorm : NormalizedState s := get_normalized stref n.id s hsn
          have hcur'' : ∀ m ∈ rest,
              get_task_state (update_task_state cur n.id (recovState s)) m.id
                = get_task_state stref m.id := by
            intro m hm
            rw [get_update_other cur n.id m.id _ (hne_rest m hm)]
            exact hcur m (by simp [hm])
          have hlocks' : (update_task_state cur n.id (recovState s)).locks = stref.locks :=
            hlocks
          obtain ⟨c1, c2, c3, c4, c5, c6, c7, c8⟩ :=
            ih (update_task_state cur n.id (recovState s)) (acc ++ [n.id]) hcur'' hlocks'
              hnodup_rest
          refine ⟨?_, ?_, ?_, ?_, by rw [c5]; rfl, by rw [c6]; rfl, by rw [c7]; rfl,
            by rw [c8]; rfl⟩
          · rw [c1, List.filter_cons_of_pos (by simp [hstale])]
            simp
          · intro i hi
            rw [c2 i (fun m hm => hi m (by simp [hm]))]
            exact get_update_other cur n.id i _ (Ne.symm (hi n (by simp)))
          · intro m hm hms
            rcases List.mem_cons.mp hm with rfl | hm'
            · rw [hstale] at hms; simp at hms
            · rw [c3 m hm' hms, get_update_other cur n.id m.id _ (hne_rest m hm')]
          · intro m hm s' hs hms
            rcases List.mem_cons.mp hm with rfl | hm'
            · rw [hsn] at hs
              have hss : s' = s := by simpa using hs.symm
              subst hss
              rw [c2 m.id (fun m' hm' => hne_rest m' hm')]
              exact get_update_self_normalized cur m.id (recovState s')
                (normalized_recovState s' hsnorm)
            · exact c4 m hm' s' hs hms
      · -- not RUNNING/CLAIMED: skipped
        rw [if_pos hrun]
        have hstale : staleCond stref now n = false := by
          rw [← Bool.not_eq_true, staleCond_iff stref now n s hsn]
          rintro ⟨h1, -⟩
          exact hrun h1
        obtain ⟨c1, c2, c3, c4, c5, c6, c7, c8⟩ :=
          ih cur acc (fun m hm => hcur m (by simp [hm])) hlocks hnodup_rest
        refine ⟨?_, ?_, ?_, ?_, c5, c6, c7, c8⟩
        · rw [c1, List.filter_cons_of_neg (by simp [hstale])]
        · intro i hi
          exact c2 i (fun m hm => hi m (by simp [hm]))
        · intro m hm hms
          rcases List.mem_cons.mp hm with rfl | hm'
          · exact c2 m.id (fun m' hm' => hne_rest m' hm')
          · exact c3 m hm' hms
        · intro m hm s' hs hms
          rcases List.mem_cons.mp hm with rfl | hm'
          · rw [hstale] at hms; simp at hms
          · exact c4 m hm' s' hs hms

theorem qualB_none (st : Store) (dag : DagModel) (n : TaskNode)
    (h : get_task_state st n.id = none) : qualB st dag n = false := by
  unfold qualB
  rw [h]

theorem qualB_iff (st : Store) (dag : DagModel) (n : TaskNode) (s : TaskState)
    (h : get_task_state st n.id = some s) :
    qualB st dag n = true
      ↔ ((s.status = .ready ∨ s.status = .blocked)
          ∧ (dag.dependencies_for n.id).all (fun d => satB st d) = true) := by
  unfold qualB
  rw [h]
  simp

theorem satB_promote (cur st1 : Store) (n : TaskNode) (s : TaskState)
    (hsat : ∀ i, satB cur i = satB st1 i)
    (hcurn : get_task_state cur n.id = get_task_state st1 n.id)
    (hs : get_task_state st1 n.id = some s) (hblock : s.status = .blocked)
    (hnorm : NormalizedState s) :
    ∀ i, satB (update_task_state cur n.id (promoteState s)) i = satB st1 i := by
  intro i
  by_cases hi : i = n.id
  · subst hi
    unfold satB
    rw [get_update_self_normalized cur n.id (promoteState s) (normalized_promote s hnorm), hs]
    simp [promoteState, statusSatisfied, hblock]
  · unfold satB
    rw [get_update_other cur n.id i _ hi]
    have := hsat i
    unfold satB at this
    exact this

theorem scan_go_spec (st1 : Store) (dag : DagModel) :
    ∀ (l : List TaskNode) (cur : Store) (acc : List String),
    (∀ n ∈ l, get_task_state cur n.id = get_task_state st1 n.id) →
    (∀ i, satB cur i = satB st1 i) →
    (l.map (fun n => n.id)).Nodup →
    (scan_go dag l cur acc).2
        = acc ++ (l.filter (fun n => qualB st1 dag n)).map (fun n => n.id)
    ∧ (∀ i, (∀ n ∈ l, n.id ≠ i) →
        get_task_state (scan_go dag l cur acc).1 i = get_task_state cur i)
    ∧ (∀ n ∈ l, qualB st1 dag n = false →
        get_task_state (scan_go dag l cur acc).1 n.id = get_task_state cur n.id)
    ∧ (∀ n ∈ l, ∀ s, get_task_state st1 n.id = some s → qualB st1 dag n = true →
        get_task_state (scan_go dag l cur acc).1 n.id
          = some (if s.status = .blocked then promoteState s else s))
    ∧ (scan_go dag l cur acc).1.locks = cur.locks
    ∧ (scan_go dag l cur acc).1.nodes = cur.nodes
    ∧ (scan_go dag l cur acc).1.deps = cur.deps
    ∧ (scan_go dag l cur acc).1.capUntil = cur.capUntil := by
  intro l
  induction l with
  | nil =>
    intro cur acc _ _ _
    refine ⟨by simp [scan_go], ?_, ?_, ?_, rfl, rfl, rfl, rfl⟩ <;> simp [scan_go]
  | cons n rest ih =>
    intro cur acc hcur hsat hnodup
    have hn : get_task_state cur n.id = get_task_state st1 n.id := hcur n (by simp)
    have hnodup_rest : (rest.map (fun n => n.id)).Nodup := by
      simpa using hnodup.of_cons
    have hhead : n.id ∉ rest.map (fun n => n.id) := by
      have := hnodup
      simp only [List.map_cons, List.nodup_cons] at this
      exact this.1
    have hne_rest : ∀ m ∈ rest, m.id ≠ n.id := by
      intro m hm hc
      exact hhead (by rw [← hc]; exact List.mem_map_of_mem _ hm)
    have hall_eq : (dag.dependencies_for n.id).all (fun d => satB cur d)
        = (dag.dependencies_for n.id).all (fun d => satB st1 d) := by
      have : (fun d => satB cur d) = (fun d => satB st1 d) := funext hsat
      rw [this]
    rw [scan_go]
    cases hsn : get_task_state st1 n.id with
    | none =>
      rw [hn, hsn]
      have hq : qualB st1 dag n = false := qualB_none st1 dag n hsn
      obtain ⟨c1, c2, c3, c4, c5, c6, c7, c8⟩ :=
        ih cur acc (fun m hm => hcur m (by simp [hm])) hsat hnodup_rest
      refine ⟨?_, ?_, ?_, ?_, c5, c6, c7, c8⟩
      · rw [c1, List.filter_cons_of_neg (by simp [hq])]
      · intro i hi
        exact c2 i (fun m hm => hi m (by simp [hm]))
      · intro m hm hms
        rcases List.mem_cons.mp hm with rfl | hm'
        · exact c2 m.id (fun m' hm' => hne_rest m' hm')
        · exact c3 m hm' hms
      · intro m hm s hs hms
        rcases List.mem_cons.mp hm with rfl | hm'
        · rw [hsn] at hs; exact absurd hs (by simp)
        · exact c4 m hm' s hs hms
    | some s =>
      rw [hn, hsn]
      simp only
      have hskip :
          (scan_go dag rest cur acc).2
              = acc ++ (rest.filter (fun m => qualB st1 dag m)).map (fun m => m.id)
            ∧ (∀ i, (∀ m ∈ rest, m.id ≠ i) →
                get_task_state (scan_go dag rest cur acc).1 i = get_task_state cur i)
            ∧ (∀ m ∈ rest, qualB st1 dag m = false →
                get_task_state (scan_go dag rest cur acc).1 m.id = get_task_state cur m.id)
            ∧ (∀ m ∈ rest, ∀ s', get_task_state st1 m.id = some s' → qualB st1 dag m = true →
                get_task_state (scan_go dag rest cur acc).1 m.id
                  = some (if s'.status = .blocked then promoteState s' else s'))
            ∧ (scan_go dag rest cur acc).1.locks = cur.locks
            ∧ (scan_go dag rest cur acc).1.nodes = cur.nodes
            ∧ (scan_go dag rest cur acc).1.deps = cur.deps
            ∧ (scan_go dag rest cur acc).1.capUntil = cur.capUntil :=
        ih cur acc (fun m hm => hcur m (by simp [hm])) hsat hnodup_rest
      by_cases hdone : s.status = TaskStatus.done
      · rw [if_pos hdone]
        have hq : qualB st1 dag n = false := by
          rw [← Bool.not_eq_true, qualB_iff st1 dag n s hsn]
          rintro ⟨h1 | h1, -⟩ <;> rw [h1] at hdone <;> simp at hdone
        obtain ⟨c1, c2, c3, c4, c5, c6, c7, c8⟩ := hskip
        refine ⟨?_, ?_, ?_, ?_, c5, c6, c7, c8⟩
        · rw [c1, List.filter_cons_of_neg (by simp [hq])]
        · intro i hi
          exact c2 i (fun m hm => hi m (by simp [hm]))
        · intro m hm hms
          rcases List.mem_cons.mp hm with rfl | hm'
          · exact c2 m.id (fun m' hm' => hne_rest m' hm')
          · exact c3 m hm' hms
        · intro m hm s' hs hms
          rcases List.mem_cons.mp hm with rfl | hm'
          · rw [hq] at hms; simp at hms
          · exact c4 m hm' s' hs hms
      · rw [if_neg hdone]
        by_cases hdeps : ¬(dag.dependencies_for n.id).isEmpty
            ∧ ¬(dag.dependencies_for n.id).all (fun d => satB cur d)
        · -- unsatisfied dependencies: skipped
          rw [if_pos hdeps]
          have hq : qualB st1 dag n = false := by
            rw [← Bool.not_eq_true, qualB_iff st1 dag n s hsn]
            rintro ⟨-, h2⟩
            rw [← hall_eq] at h2
            exact hdeps.2 h2
          obtain ⟨c1, c2, c3, c4, c5, c6, c7, c8⟩ := hskip
          refine ⟨?_, ?_, ?_, ?_, c5, c6, c7, c8⟩
          · rw [c1, List.filter_cons_of_neg (by simp [hq])]
          · intro i hi
            exact c2 i (fun m hm => hi m (by simp [hm]))
          · intro m hm hms
            rcases List.mem_cons.mp hm with rfl | hm'
            · exact c2 m.id (fun m' hm' => hne_rest m' hm')
            · exact c3 m hm' hms
          · intro m hm s' hs hms
            rcases List.mem_cons.mp hm with rfl | hm'
            · rw [hq] at hms; simp at hms
            · exact c4 m hm' s' hs hms
        · rw [if_neg hdeps]
          have hdepsall : (dag.dependencies_for n.id).all (fun d => satB st1 d) = true := by
            rw [← hall_eq]
            rcases Classical.not_and_iff_or_not_not.mp hdeps with h | h
            · rw [not_not] at h
              cases hde : dag.dependencies_for n.id with
              | nil => simp
              | cons a as => rw [hde] at h; simp at h
            · rw [not_not] at h
              exact h
          by_cases hrb : s.status = TaskStatus.ready ∨ s.status = TaskStatus.blocked
          · have hq : qualB st1 dag n = true :=
              (qualB_iff st1 dag n s hsn).mpr ⟨hrb, hdepsall⟩
            rw [if_pos hrb]
            have hsnorm : NormalizedState s := get_normalized st1 n.id s hsn
            by_cases hblock : s.status = TaskStatus.blocked
            · -- BLOCKED: promoted to READY and written back
              rw [if_pos hblock]
              have hcur'' : ∀ m ∈ rest,
                  get_task_state (update_task_state cur n.id (promoteState s)) m.id
                    = get_task_state st1 m.id := by
                intro m hm
                rw [get_update_other cur n.id m.id _ (hne_rest m hm)]
                exact hcur m (by simp [hm])
              have hsat' := satB_promote cur st1 n s hsat hn hsn hblock hsnorm
              obtain ⟨c1, c2, c3, c4, c5, c6, c7, c8⟩ :=
                ih (update_task_state cur n.id (promoteState s)) (acc ++ [n.id]) hcur'' hsat'
                  hnodup_rest
              refine ⟨?_, ?_, ?_, ?_, by rw [c5]; rfl, by rw [c6]; rfl, by rw [c7]; rfl,
                by rw [c8]; rfl⟩
              · rw [c1, List.filter_cons_of_pos (by simp [hq])]
                simp
              · intro i hi
                rw [c2 i (fun m hm => hi m (by simp [hm]))]
                exact get_update_other cur n.id i _ (Ne.symm (hi n (by simp)))
              · intro m hm hms
                rcases List.mem_cons.mp hm with rfl | hm'
                · rw [hq] at hms; simp at hms
                · rw [c3 m hm' hms, get_update_other cur n.id m.id _ (hne_rest m hm')]
              · intro m hm s' hs hms
                rcases List.mem_cons.mp hm with rfl | hm'
                · rw [hsn] at hs
                  have hss : s' = s := by simpa using hs.symm
                  subst hss
                  rw [c2 m.id (fun m' hm' => hne_rest m' hm'), if_pos hblock]
                  exact get_update_self_normalized cur m.id (promoteState s')
                    (normalized_promote s' hsnorm)
                · exact c4 m hm' s' hs hms
            · -- READY: appended without a write
              rw [if_neg hblock]
              obtain ⟨c1, c2, c3, c4, c5, c6, c7, c8⟩ :=
                ih cur (acc ++ [n.id]) (fun m hm => hcur m (by simp [hm])) hsat hnodup_rest
              refine ⟨?_, ?_, ?_, ?_, c5, c6, c7, c8⟩
              · rw [c1, List.filter_cons_of_pos (by simp [hq])]
                simp
              · intro i hi
                exact c2 i (fun m hm => hi m (by simp [hm]))
              · intro m hm hms
                rcases List.mem_cons.mp hm with rfl | hm'
                · rw [hq] at hms; simp at hms
                · exact c3 m hm' hms
              · intro m hm s' hs hms
                rcases List.mem_cons.mp hm with rfl | hm'
                · rw [hsn] at hs
                  have hss : s' = s := by simpa using hs.symm
                  subst hss
                  rw [c2 m.id (fun m' hm' => hne_rest m' hm'), if_neg hblock]
                  exact hn.trans hsn
                · exact c4 m hm' s' hs hms
          · -- neither READY nor BLOCKED (nor DONE): skipped
            rw [if_neg hrb]
            have hq : qualB st1 dag n = false := by
              rw [← Bool.not_eq_true, qualB_iff st1 dag n s hsn]
              rintro ⟨h1, -⟩
              exact hrb h1
            obtain ⟨c1, c2, c3, c4, c5, c6, c7, c8⟩ := hskip
            refine ⟨?_, ?_, ?_, ?_, c5, c6, c7, c8⟩
            · rw [c1, List.filter_cons_of_neg (by simp [hq])]
            · intro i hi
              exact c2 i (fun m hm => hi m (by simp [hm]))
            · intro m hm hms
              rcases List.mem_cons.mp hm with rfl | hm'
              · exact c2 m.id (fun m' hm' => hne_rest m' hm')
              · exact c3 m hm' hms
            · intro m hm s' hs hms
              rcases List.mem_cons.mp hm with rfl | hm'
              · rw [hq] at hms; simp at hms
              · exact c4 m hm' s' hs hms

theorem read_dag_inv (st : Store) (goal_id : String) (dag : DagModel)
    (h : read_dag st goal_id = some dag) :
    dag.goal_id = goal_id
    ∧ dag.nodes = st.nodes.map Prod.snd
    ∧ dag.edges = (st.deps.map (fun p => p.2.map (fun d => (d, p.1)))).flatten
    ∧ ¬ st.nodes.isEmpty := by
  unfold read_dag at h
  by_cases he : st.nodes.isEmpty
  · rw [if_pos he] at h
    simp at h
  · rw [if_neg he] at h
    simp only [Option.some.injEq] at h
    rw [← h]
    exact ⟨rfl, rfl, rfl, he⟩

theorem dag_ids_nodup (st : Store) (goal_id : String) (dag : DagModel)
    (hKey : NodesKeyOk st) (hNN : NodesNodup st)
    (h : read_dag st goal_id = some dag) :
    (dag.nodes.map (fun n => n.id)).Nodup := by
  obtain ⟨-, hn, -, -⟩ := read_dag_inv st goal_id dag h
  rw [hn, List.map_map]
  have : st.nodes.map (Prod.snd · |>.id) = st.nodes.map Prod.fst := by
    apply List.map_congr_left
    intro p hp
    exact (hKey p hp).symm
  simpa [Function.comp] using this ▸ hNN

theorem flatten_no_target (nid : String) :
    ∀ (l : List (String × List String)), (∀ p ∈ l, p.1 ≠ nid) →
      ((l.map (fun p => p.2.map (fun d => (d, p.1)))).flatten.filter
        (fun e => e.2 = nid)) = [] := by
  intro l
  induction l with
  | nil => simp
  | cons p ps ih =>
    intro h
    simp only [List.map_cons, List.flatten_cons, List.filter_append]
    rw [ih (fun q hq => h q (by simp [hq]))]
    have : (p.2.map (fun d => (d, p.1))).filter (fun e => e.2 = nid) = [] := by
      apply List.filter_eq_nil_iff.mpr
      intro e he
      simp only [List.mem_map] at he
      obtain ⟨d, -, rfl⟩ := he
      simpa using h p (by simp)
    rw [this]
    rfl

theorem flatten_deps_filter (nid : String) :
    ∀ (l : List (String × List String)), (l.map Prod.fst).Nodup →
      (((l.map (fun p => p.2.map (fun d => (d, p.1)))).flatten.filter
          (fun e => e.2 = nid)).map (fun e => e.1))
        = (l.lookup nid).getD [] := by
  intro l
  induction l with
  | nil => simp [List.lookup]
  | cons p ps ih =>
    intro hnodup
    simp only [List.map_cons, List.nodup_cons] at hnodup
    simp only [List.map_cons, List.flatten_cons, List.filter_append, List.map_append]
    by_cases hp : p.1 = nid
    · have hhead : (p.2.map (fun d => (d, p.1))).filter (fun e => e.2 = nid)
          = p.2.map (fun d => (d, p.1)) := by
        apply List.filter_eq_self.mpr
        intro e he
        simp only [List.mem_map] at he
        obtain ⟨d, -, rfl⟩ := he
        simpa using hp
      rw [hhead]
      have hrest : ((ps.map (fun p => p.2.map (fun d => (d, p.1)))).flatten.filter
          (fun e => e.2 = nid)) = [] := by
        apply flatten_no_target
        intro q hq hc
        apply hnodup.1
        rw [hp, ← hc]
        exact List.mem_map_of_mem _ hq
      rw [hrest]
      rw [List.lookup, show (nid == p.1) = true by simpa using hp.symm]
      simp only [List.map_append, List.map_map, List.nil_append, cond_true, Option.getD_some]
      have hcomp : ((fun (e : String × String) => e.1) ∘ fun d => (d, p.1)) = fun d => d := rfl
      rw [hcomp]
      simp
    · have hhead : (p.2.map (fun d => (d, p.1))).filter (fun e => e.2 = nid) = [] := by
        apply List.filter_eq_nil_iff.mpr
        intro e he
        simp only [List.mem_map] at he
        obtain ⟨d, -, rfl⟩ := he
        simpa using hp
      rw [hhead]
      rw [List.lookup, show (nid == p.1) = false by simp; exact fun hc => hp hc.symm]
      simp only [List.nil_append, cond_false]
      exact ih hnodup.2

theorem dependencies_for_read (st : Store) (goal_id : String) (dag : DagModel)
    (hD : DepsNodup st) (h : read_dag st goal_id = some dag) :
    ∀ nid, dag.dependencies_for nid = depsOf st nid := by
  intro nid
  obtain ⟨-, -, he, -⟩ := read_dag_inv st goal_id dag h
  unfold DagModel.dependencies_for depsOf
  rw [he]
  exact flatten_deps_filter nid st.deps hD

theorem recover_stale_spec (st : Store) (goal_id : String) (now : Int) (dag : DagModel)
    (hKey : NodesKeyOk st) (hNN : NodesNodup st)
    (hdag : read_dag st goal_id = some dag) :
    (recover_stale_tasks st goal_id now).2
        = (dag.nodes.filter (fun n => staleCond st now n)).map (fun n => n.id)
    ∧ (∀ i, (∀ n ∈ dag.nodes, n.id ≠ i) →
        get_task_state (recover_stale_tasks st goal_id now).1 i = get_task_state st i)
    ∧ (∀ n ∈ dag.nodes, staleCond st now n = false →
        get_task_state (recover_stale_tasks st goal_id now).1 n.id = get_task_state st n.id)
    ∧ (∀ n ∈ dag.nodes, ∀ s, get_task_state st n.id = some s → staleCond st now n = true →
        get_task_state (recover_stale_tasks st goal_id now).1 n.id = some (recovState s))
    ∧ (recover_stale_tasks st goal_id now).1.locks = st.locks
    ∧ (recover_stale_tasks st goal_id now).1.nodes = st.nodes
    ∧ (recover_stale_tasks st goal_id now).1.deps = st.deps
    ∧ (recover_stale_tasks st goal_id now).1.capUntil = st.capUntil := by
  have hids := dag_ids_nodup st goal_id dag hKey hNN hdag
  unfold recover_stale_tasks
  rw [hdag]
  have := recover_go_spec st now dag.nodes st [] (fun _ _ => rfl) rfl hids
  simpa using this

theorem list_ready_spec (st : Store) (goal_id : String) (now : Int) (dag : DagModel)
    (hKey : NodesKeyOk st) (hNN : NodesNodup st)
    (hdag : read_dag st goal_id = some dag) :
    (list_ready_tasks st goal_id now).2
        = ((sortDesc dag.nodes).filter
            (fun n => qualB (recover_stale_tasks st goal_id now).1 dag n)).map (fun n => n.id)
    ∧ (∀ n ∈ dag.nodes, ∀ s,
        get_task_state (recover_stale_tasks st goal_id now).1 n.id = some s →
        qualB (recover_stale_tasks st goal_id now).1 dag n = true →
        get_task_state (list_ready_tasks st goal_id now).1 n.id
          = some (if s.status = .blocked then promoteState s else s)) := by
  have hids := dag_ids_nodup st goal_id dag hKey hNN hdag
  have hids' : ((sortDesc dag.nodes).map (fun n => n.id)).Nodup :=
    (((sortDesc_perm dag.nodes).map (fun n => n.id)).nodup_iff).mpr hids
  unfold list_ready_tasks
  rw [hdag]
  obtain ⟨c1, c2, c3, c4, c5, c6, c7, c8⟩ :=
    scan_go_spec (recover_stale_tasks st goal_id now).1 dag (sortDesc dag.nodes)
      (recover_stale_tasks st goal_id now).1 [] (fun _ _ => rfl) (fun _ => rfl) hids'
  constructor
  · simpa using c1
  · intro n hn s hs hq
    exact c4 n ((sortDesc_perm dag.nodes).mem_iff.mpr hn) s hs hq

theorem ds_opt_str_congr (raw raw' : List (String × RVal)) (key : String)
    (h : raw.lookup key = raw'.lookup key) : ds_opt_str raw key = ds_opt_str raw' key := by
  unfold ds_opt_str
  rw [h]

theorem ds_lease_congr (raw raw' : List (String × RVal))
    (h : raw.lookup "lease_expires" = raw'.lookup "lease_expires") :
    ds_lease raw = ds_lease raw' := by
  unfold ds_lease
  rw [h]

theorem mergeInit_eq (old : List (String × RVal)) (deps : List String) :
    mergeInit old deps
      = hset (hset old "status" (RVal.str (statusStr (initStateFor deps).status)))
          "artifacts" (RVal.jlist []) := rfl

theorem deserialize_mergeInit (old : List (String × RVal)) (s : TaskState)
    (deps : List String) (h : deserialize_state old = some s) :
    deserialize_state (mergeInit old deps)
      = some { s with status := (initStateFor deps).status, artifacts := [] } := by
  obtain ⟨f1, f2, f3, f4, f5, f6⟩ := deserialize_fields old s h
  rw [mergeInit_eq]
  have lst : (hset (hset old "status" (RVal.str (statusStr (initStateFor deps).status)))
      "artifacts" (RVal.jlist [])).lookup "status"
      = some (RVal.str (statusStr (initStateFor deps).status)) := by
    rw [lookup_hset_other _ "artifacts" "status" _ (by decide), lookup_hset_self]
  have lar : (hset (hset old "status" (RVal.str (statusStr (initStateFor deps).status)))
      "artifacts" (RVal.jlist [])).lookup "artifacts" = some (RVal.jlist []) := by
    rw [lookup_hset_self]
  have lother : ∀ key, key ≠ "status" → key ≠ "artifacts" →
      (hset (hset old "status" (RVal.str (statusStr (initStateFor deps).status)))
        "artifacts" (RVal.jlist [])).lookup key = old.lookup key := by
    intro key h1 h2
    rw [lookup_hset_other _ "artifacts" key _ h2, lookup_hset_other _ "status" key _ h1]
  unfold deserialize_state
  have e1 : ds_status (hset (hset old "status" (RVal.str (statusStr (initStateFor deps).status)))
      "artifacts" (RVal.jlist [])) = some (initStateFor deps).status := by
    unfold ds_status
    rw [lst]
    simp [statusOfStr_statusStr]
  have e2 := ds_opt_str_congr _ old "owner" (lother "owner" (by decide) (by decide))
  have e3 := ds_lease_congr _ old (lother "lease_expires" (by decide) (by decide))
  have e4 := ds_opt_str_congr _ old "progress" (lother "progress" (by decide) (by decide))
  have e5 : ds_artifacts (hset (hset old "status"
      (RVal.str (statusStr (initStateFor deps).status))) "artifacts" (RVal.jlist []))
      = some [] := by
    unfold ds_artifacts
    rw [lar]
  have e6 := ds_opt_str_congr _ old "last_error" (lother "last_error" (by decide) (by decide))
  rw [e1, e2, e3, e4, e5, e6, f2, f3, f4, f6]
  rfl

theorem write_go_spec (dag : DagModel) :
    ∀ (l : List TaskNode) (acc : Store),
    (l.map (fun n => n.id)).Nodup →
    (∀ n ∈ l, acc.nodes.any (fun p => p.1 = n.id) = false) →
    (∀ n ∈ l, acc.deps.any (fun p => p.1 = n.id) = false) →
    (l.foldl (write_dag_step dag) acc).nodes = acc.nodes ++ l.map (fun n => (n.id, n))
    ∧ (l.foldl (write_dag_step dag) acc).deps
        = acc.deps ++ l.map (fun n => (n.id, dag.dependencies_for n.id))
    ∧ (∀ t, (∀ n ∈ l, n.id ≠ t) → (l.foldl (write_dag_step dag) acc).states t = acc.states t)
    ∧ (∀ n ∈ l, (l.foldl (write_dag_step dag) acc).states n.id
        = some (mergeInit ((acc.states n.id).getD []) (dag.dependencies_for n.id)))
    ∧ (l.foldl (write_dag_step dag) acc).locks = acc.locks
    ∧ (l.foldl (write_dag_step dag) acc).capUntil = acc.capUntil := by
  intro l
  induction l with
  | nil =>
    intro acc _ _ _
    refine ⟨by simp, by simp, fun t _ => rfl, by simp, rfl, rfl⟩
  | cons n rest ih =>
    intro acc hnodup habsN habsD
    have hnodup_rest : (rest.map (fun n => n.id)).Nodup := by
      simpa using hnodup.of_cons
    have hhead : n.id ∉ rest.map (fun n => n.id) := by
      have := hnodup
      simp only [List.map_cons, List.nodup_cons] at this
      exact this.1
    have hne_rest : ∀ m ∈ rest, m.id ≠ n.id := by
      intro m hm hc
      exact hhead (by rw [← hc]; exact List.mem_map_of_mem _ hm)
    have hN : (write_dag_step dag acc n).nodes = acc.nodes ++ [(n.id, n)] := by
      unfold write_dag_step hset
      simp [habsN n (by simp)]
    have hD : (write_dag_step dag acc n).deps
        = acc.deps ++ [(n.id, dag.dependencies_for n.id)] := by
      unfold write_dag_step hset
      simp [habsD n (by simp)]
    have habsN' : ∀ m ∈ rest, (write_dag_step dag acc n).nodes.any
        (fun p => p.1 = m.id) = false := by
      intro m hm
      rw [hN]
      simp only [List.any_append, Bool.or_eq_false_iff]
      refine ⟨habsN m (by simp [hm]), ?_⟩
      simp [hne_rest m hm]
      exact fun hc => absurd hc.symm (hne_rest m hm)
    have habsD' : ∀ m ∈ rest, (write_dag_step dag acc n).deps.any
        (fun p => p.1 = m.id) = false := by
      intro m hm
      rw [hD]
      simp only [List.any_append, Bool.or_eq_false_iff]
      refine ⟨habsD m (by simp [hm]), ?_⟩
      simp
      exact fun hc => absurd hc.symm (hne_rest m hm)
    obtain ⟨c1, c2, c3, c4, c5, c6⟩ :=
      ih (write_dag_step dag acc n) hnodup_rest habsN' habsD'
    rw [List.foldl_cons]
    refine ⟨?_, ?_, ?_, ?_, ?_, ?_⟩
    · rw [c1, hN]
      simp
    · rw [c2, hD]
      simp
    · intro t ht
      rw [c3 t (fun m hm => ht m (by simp [hm]))]
      unfold write_dag_step
      simp only
      rw [if_neg (fun hc => (ht n (by simp)) hc.symm)]
    · intro m hm
      rcases List.mem_cons.mp hm with rfl | hm'
      · rw [c3 m.id (fun m' hm' => hne_rest m' hm')]
        unfold write_dag_step
        simp
      · rw [c4 m hm']
        unfold write_dag_step
        simp only
        rw [if_neg (hne_rest m hm')]
    · rw [c5]; rfl
    · rw [c6]; rfl

theorem write_dag_spec (st : Store) (dag : DagModel)
    (h : (dag.nodes.map (fun n => n.id)).Nodup) :
    (write_dag st dag).nodes = dag.nodes.map (fun n => (n.id, n))
    ∧ (write_dag st dag).deps = dag.nodes.map (fun n => (n.id, dag.dependencies_for n.id))
    ∧ (∀ t, (∀ n ∈ dag.nodes, n.id ≠ t) → (write_dag st dag).states t = st.states t)
    ∧ (∀ n ∈ dag.nodes, (write_dag st dag).states n.id
        = some (mergeInit ((st.states n.id).getD []) (dag.dependencies_for n.id)))
    ∧ (write_dag st dag).locks = st.locks
    ∧ (write_dag st dag).capUntil = st.capUntil := by
  unfold write_dag
  obtain ⟨c1, c2, c3, c4, c5, c6⟩ :=
    write_go_spec dag dag.nodes { st with nodes := [], deps := [] } h
      (fun n _ => rfl) (fun n _ => rfl)
  exact ⟨by simpa using c1, by simpa using c2, c3, c4, c5, c6⟩

theorem lookup_of_mem_nodup {α : Type} (l : List (String × α)) (k : String) (v : α)
    (h : (k, v) ∈ l) (hn : (l.map Prod.fst).Nodup) : l.lookup k = some v := by
  induction l with
  | nil => simp at h
  | cons p ps ih =>
    simp only [List.map_cons, List.nodup_cons] at hn
    rcases List.mem_cons.mp h with rfl | h'
    · rw [List.lookup]
      simp
    · have hk : k ≠ p.1 := by
        intro hc
        exact hn.1 (hc ▸ List.mem_map_of_mem Prod.fst h')
      rw [List.lookup, show (k == p.1) = false by simpa using hk]
      simp only [cond_false]
      exact ih h' hn.2

theorem lookup_some_mem_keys {α : Type} (l : List (String × α)) (k : String) (v : α)
    (h : l.lookup k = some v) : k ∈ l.map Prod.fst := by
  induction l with
  | nil => simp [List.lookup] at h
  | cons p ps ih =>
    rw [List.lookup] at h
    cases hk : (k == p.1) with
    | true =>
      simp only [List.map_cons, List.mem_cons]
      left
      exact beq_iff_eq.mp hk
    | false =>
      rw [hk] at h
      simp only [cond_false] at h
      simp only [List.map_cons, List.mem_cons]
      exact Or.inr (ih h)

theorem nodes_remap (st : Store) (hKey : NodesKeyOk st) :
    (st.nodes.map Prod.snd).map (fun n => (n.id, n)) = st.nodes := by
  rw [List.map_map]
  have : st.nodes.map ((fun n => (n.id, n)) ∘ Prod.snd) = st.nodes.map (fun p => p) := by
    apply List.map_congr_left
    intro p hp
    have := hKey p hp
    simp [Function.comp]
    rw [← this]
  rw [this]
  simp

theorem elevate_nodes_ids (l : List TaskNode) (tid prio : String) :
    (elevate_nodes l tid prio).map (fun n => n.id) = l.map (fun n => n.id) := by
  induction l with
  | nil => rfl
  | cons n ns ih =>
    rw [elevate_nodes]
    by_cases hid : n.id = tid
    · rw [if_pos hid]
      cases pyInt? prio <;> simp
    · rw [if_neg hid]
      simp [ih]

theorem elevate_nodes_lookup_self (l : List TaskNode) (tid prio : String) (p : Int)
    (hp : pyInt? prio = some p) :
    ∀ (nd : TaskNode), (l.map (fun n => n.id)).Nodup → nd ∈ l → nd.id = tid →
    ((elevate_nodes l tid prio).map (fun n => (n.id, n))).lookup tid
      = some { nd with priority := p } := by
  induction l with
  | nil => intro nd _ h _; simp at h
  | cons n ns ih =>
    intro nd hnodup hmem hid
    simp only [List.map_cons, List.nodup_cons] at hnodup
    rw [elevate_nodes]
    by_cases hn : n.id = tid
    · rw [if_pos hn, hp]
      have hnd : nd = n := by
        rcases List.mem_cons.mp hmem with rfl | h'
        · rfl
        · exfalso
          apply hnodup.1
          rw [hn, ← hid]
          exact List.mem_map_of_mem _ h'
      subst hnd
      simp only [List.map_cons]
      rw [List.lookup]
      have : (tid == TaskNode.id { nd with priority := p }) = true := by
        simpa using hn.symm
      rw [this]
    · rw [if_neg hn]
      simp only [List.map_cons]
      rw [List.lookup, show (tid == n.id) = false by simpa using fun hc => hn hc.symm]
      simp only [cond_false]
      have hmem' : nd ∈ ns := by
        rcases List.mem_cons.mp hmem with rfl | h'
        · exact absurd hid hn
        · exact h'
      exact ih nd hnodup.2 hmem' hid

theorem elevate_nodes_lookup_other (l : List TaskNode) (tid prio k : String) (hk : k ≠ tid) :
    ((elevate_nodes l tid prio).map (fun n => (n.id, n))).lookup k
      = (l.map (fun n => (n.id, n))).lookup k := by
  induction l with
  | nil => rfl
  | cons n ns ih =>
    rw [elevate_nodes]
    by_cases hn : n.id = tid
    · rw [if_pos hn]
      have hknid : (k == n.id) = false := by
        simpa using fun hc => hk (hc.trans hn)
      have hgen : ∀ (m : TaskNode), m.id = n.id →
          (((m :: ns).map (fun x => (x.id, x))).lookup k)
            = (((n :: ns).map (fun x => (x.id, x))).lookup k) := by
        intro m hm
        simp only [List.map_cons]
        rw [List.lookup, List.lookup, hm, hknid]
      cases hpi : pyInt? prio with
      | none => exact hgen n rfl
      | some pv => exact hgen { n with priority := pv } rfl
    · rw [if_neg hn]
      simp only [List.map_cons]
      rw [List.lookup, List.lookup]
      cases hkn : (k == n.id) <;> simp only [cond_false, cond_true]
      exact ih

/-- Claim C3 (corrected): when the oracle status normalises to "done",
_record_result writes a state whose status follows the phase table -
development maps to DEV_DONE, qa to QA_PASSED, integration to DONE and
any other phase to DONE - with progress equal to the summary and
artifacts equal to the oracle outputs.  However a MISSING phase key
defaults to "development" and therefore maps to DEV_DONE, not DONE as
the claim states (see claim_C3_counterexample). -/
theorem claim_C3 (st : Store) (goal_id agent_role : String) (node : TaskNode)
    (execution : TaskExecutionResult) (summary : String) (oracle : OracleScript)
    (h : pyStripLower execution.status = "done") :
    record_result st goal_id agent_role node execution summary oracle
      = some (update_task_state st node.id
          ⟨(if (node.metadata.lookup "phase").getD "development" = "development" then .dev_done
            else if (node.metadata.lookup "phase").getD "development" = "qa" then .qa_passed
            else if (node.metadata.lookup "phase").getD "development" = "integration" then .done
            else .done),
            none, none, some summary, execution.outputs, none⟩, []) := by
  unfold record_result
  rw [h]
  rw [if_neg (by rintro ⟨-, h2 | h2⟩ <;> exact absurd h2 (by decide))]
  rw [if_neg (by rintro (h2 | h2) <;> exact absurd h2 (by decide))]
  split_ifs <;> rfl

/-- Witness for claim C3: a qa-phase node with a done execution is written
QA_PASSED with the summary and outputs. -/
theorem claim_C3_witness :
    record_result stC3 "g" "dev" nodeC3qa execC3 "reviewed" oracleNull
      = some (update_task_state stC3 "n2"
          ⟨.qa_passed, none, none, some "reviewed", ["out.txt"], none⟩, []) :=
  claim_C3 stC3 "g" "dev" nodeC3qa execC3 "reviewed" oracleNull (by decide)

/-- Counterexample to claim C3 as stated: a node with NO phase metadata
and a done execution is recorded DEV_DONE (the code defaults the phase
to "development"), while the claim says a missing phase maps to DONE. -/
theorem claim_C3_counterexample :
    ((record_result stC3 "g" "dev" nodeC3 execC3 "sum" oracleNull).map
        (fun r => (get_task_state r.1 "n1", r.2)))
      = some (some ⟨.dev_done, none, none, some "sum", ["out.txt"], none⟩, [])
    ∧ TaskStatus.dev_done ≠ TaskStatus.done := by
  constructor
  · decide
  · decide

/-- Claim C6 (confirmed): a task whose recovery_attempts metadata parses
to at least 3 (MAX_RECOVERY_ATTEMPTS) is, on a further failure, written
FAILED with last_error set to the error text, no oracle call is made,
and the DAG hashes are untouched (no recovery task is created) -
regardless of how the error would classify. -/
theorem claim_C6 (st : Store) (goal_id agent_role : String) (node : TaskNode)
    (error : String) (oracle : OracleScript) (a : Int)
    (hparse : pyInt? ((node.metadata.lookup "recovery_attempts").getD "0") = some a)
    (ha : 3 ≤ a) :
    record_failure_or_recovery st goal_id agent_role node error oracle
      = some (update_task_state st node.id ⟨.failed, none, none, none, [], some error⟩, [])
    ∧ (update_task_state st node.id ⟨.failed, none, none, none, [], some error⟩).nodes
        = st.nodes
    ∧ (update_task_state st node.id ⟨.failed, none, none, none, [], some error⟩).deps
        = st.deps := by
  refine ⟨?_, rfl, rfl⟩
  have h3 : MAX_RECOVERY_ATTEMPTS ≤ a := by unfold MAX_RECOVERY_ATTEMPTS; omega
  unfold record_failure_or_recovery
  simp only [hparse, if_pos h3]
  rfl

/-- Witness for claim C6 at a concrete store and node. -/
theorem claim_C6_witness :
    record_failure_or_recovery stC3 "g" "dev" nodeC6 "node version" oracleNull
      = some (update_task_state stC3 "n1"
          ⟨.failed, none, none, none, [], some "node version"⟩, [])
    ∧ (update_task_state stC3 "n1"
        ⟨.failed, none, none, none, [], some "node version"⟩).nodes = stC3.nodes
    ∧ (update_task_state stC3 "n1"
        ⟨.failed, none, none, none, [], some "node version"⟩).deps = stC3.deps :=
  claim_C6 stC3 "g" "dev" nodeC6 "node version" oracleNull 3 (by decide) (by decide)

/-- Claim C7 (code bug): the deterministic classifier returns
recoverable=true with confidence 1.0 for the listed phrases - but NOT
for "node version".  The last pattern's source is the raw string
`"unsupported engine|requires node|node\\s+version"`; inside a raw
string the doubled backslash denotes a literal backslash followed by
`s+`, so the regex matches `node\` + one or more `s` + `version`, never
the intended whitespace.  "node version" therefore matches no pattern
and the classifier falls through to the LLM, contradicting the spec
(which lists "node version" and calls such failures always
recoverable). -/
theorem claim_C7 :
    deterministic_recovery_decision "spending cap reached"
      = some ⟨true, "Matched recoverable error pattern: spending cap reached",
          "Repair environment/runtime prerequisites", [], 1⟩
    ∧ deterministic_recovery_decision "Rate Limit exceeded"
      = some ⟨true, "Matched recoverable error pattern: rate limit",
          "Repair environment/runtime prerequisites", [], 1⟩
    ∧ deterministic_recovery_decision "request timed out"
      = some ⟨true, "Matched recoverable error pattern: timed out",
          "Repair environment/runtime prerequisites", [], 1⟩
    ∧ deterministic_recovery_decision "connect timeout"
      = some ⟨true, "Matched recoverable error pattern: timeout",
          "Repair environment/runtime prerequisites", [], 1⟩
    ∧ deterministic_recovery_decision "Network unreachable"
      = some ⟨true, "Matched recoverable error pattern: network",
          "Repair environment/runtime prerequisites", [], 1⟩
    ∧ deterministic_recovery_decision "node: command not found"
      = some ⟨true, "Matched recoverable error pattern: command not found|not found",
          "Repair environment/runtime prerequisites", [], 1⟩
    ∧ deterministic_recovery_decision "node version" = none
    ∧ deterministic_recovery_decision "requires node 18" ≠ none := by
  refine ⟨?_, ?_, ?_, ?_, ?_, ?_, ?_, ?_⟩ <;> decide

/-- Claim C8 (confirmed): an iteration of the agent loop that starts
while the stored goal-wide spending-cap deadline is strictly in the
future performs no work at all - the work phase (and with it
select_next_task / execute_task and the instruction reload) is skipped
and no oracle call is made; an iteration that starts with the deadline
absent, or past (in which case the read clears it), and with the agent
not paused, runs the work phase. -/
theorem claim_C8 (st : Store) (goal_id : String) (now : Int) (paused reloadDue : Bool)
    (agent_name agent_role : String) (lease_ttl : Int) (oracle : OracleScript) :
    (∀ d, st.capUntil = some d → now < d →
      run_iteration st goal_id now paused reloadDue agent_name agent_role lease_ttl oracle
        = some ⟨st, [], false, false⟩)
    ∧ (st.capUntil = none → paused = false →
      run_iteration st goal_id now paused reloadDue agent_name agent_role lease_ttl oracle
        = (run_cycle st goal_id now agent_name agent_role lease_ttl oracle).map
            (fun r => ⟨r.1, r.2, true, reloadDue⟩))
    ∧ (∀ d, st.capUntil = some d → d ≤ now → paused = false →
      run_iteration st goal_id now paused reloadDue agent_name agent_role lease_ttl oracle
        = (run_cycle (clear_goal_spending_cap st) goal_id now agent_name agent_role
            lease_ttl oracle).map (fun r => ⟨r.1, r.2, true, reloadDue⟩)) := by
  refine ⟨?_, ?_, ?_⟩
  · intro d hd hlt
    have h1 : ¬ (d ≤ now) := by omega
    have h2 : decide (now < d) = true := by simpa using hlt
    simp only [run_iteration, get_goal_spending_cap_until, hd, if_neg h1, h2]
    simp
  · intro hd hp
    simp only [run_iteration, get_goal_spending_cap_until, hd, hp]
    simp only [Bool.not_false, Bool.and_self, if_true]
    cases run_cycle st goal_id now agent_name agent_role lease_ttl oracle <;> rfl
  · intro d hd hle hp
    simp only [run_iteration, get_goal_spending_cap_until, hd, hp, if_pos hle]
    simp only [Bool.not_false, Bool.and_self, if_true]
    cases run_cycle (clear_goal_spending_cap st) goal_id now agent_name agent_role
      lease_ttl oracle <;> rfl

/-- Witness for claim C8: with a deadline of 100 at now=0 the iteration
does nothing; with no deadline the iteration equals the work phase. -/
theorem claim_C8_witness :
    run_iteration stC9 "g" 0 false false "a1" "dev" 30 oracleNull
      = some ⟨stC9, [], false, false⟩ :=
  (claim_C8 stC9 "g" 0 false false "a1" "dev" 30 oracleNull).1 100 rfl (by decide)

/-- Claim C9 (corrected): with a stored future deadline d, a future
`until ≤ d` leaves d stored, and a future `until > d` replaces it (and
is what get returns); but an `until ≤ now` does not leave d - it CLEARS
the stored deadline entirely (see claim_C9_counterexample), which is the
one regression the code allows. -/
theorem claim_C9 (st : Store) (now d u : Int) (hd : st.capUntil = some d)
    (hfut : now < d) :
    (now < u → u ≤ d → (set_goal_spending_cap_until st now u).capUntil = some d)
    ∧ (d < u → (set_goal_spending_cap_until st now u).capUntil = some u
        ∧ (get_goal_spending_cap_until (set_goal_spending_cap_until st now u) now).2 = some u)
    ∧ (u ≤ now → (set_goal_spending_cap_until st now u).capUntil = none) := by
  refine ⟨?_, ?_, ?_⟩
  · intro h1 h2
    have ha : ¬ (u ≤ now) := by omega
    have hb : ¬ (d ≤ now) := by omega
    simp only [set_goal_spending_cap_until, get_goal_spending_cap_until, hd,
      if_neg ha, if_neg hb, if_pos h2]
  · intro h1
    have ha : ¬ (u ≤ now) := by omega
    have hb : ¬ (d ≤ now) := by omega
    have hc : ¬ (u ≤ d) := by omega
    simp only [set_goal_spending_cap_until, get_goal_spending_cap_until, hd,
      if_neg ha, if_neg hb, if_neg hc]
    exact ⟨trivial, trivial⟩
  · intro h1
    simp only [set_goal_spending_cap_until, if_pos h1]
    rfl

/-- Witness for claim C9 at concrete deadlines. -/
theorem claim_C9_witness :
    (set_goal_spending_cap_until stC9 50 80).capUntil = some 100
    ∧ (set_goal_spending_cap_until stC9 50 120).capUntil = some 120 :=
  ⟨(claim_C9 stC9 50 100 80 rfl (by decide)).1 (by decide) (by decide),
    ((claim_C9 stC9 50 100 120 rfl (by decide)).2.1 (by decide)).1⟩

/-- Counterexample to claim C9 as stated: with stored deadline 100 (in
the future at now=50), calling set with until=40 ≤ 100 does NOT leave
the stored deadline at 100 - the `until ≤ now` branch clears the key. -/
theorem claim_C9_counterexample :
    ((40 : Int) ≤ 100) ∧ ((50 : Int) < 100)
    ∧ (set_goal_spending_cap_until stC9 50 40).capUntil ≠ some 100
    ∧ (set_goal_spending_cap_until stC9 50 40).capUntil = none := by
  refine ⟨by decide, by decide, ?_, ?_⟩ <;> decide

/-- Claim C10 (confirmed): task-state persistence round-trips - reading
back a written state yields it with each empty-string optional field
(owner, progress, last_error) collapsed to null; in particular a state
whose optional string fields are null or non-empty reads back equal to
itself, and an empty-string field reads back as null. -/
theorem claim_C10 (st : Store) (t : String) (s : TaskState) :
    get_task_state (update_task_state st t s) t = some (normalize_state s)
    ∧ (s.owner ≠ some "" → s.progress ≠ some "" → s.last_error ≠ some "" →
        get_task_state (update_task_state st t s) t = some s)
    ∧ (s.owner = some "" →
        (get_task_state (update_task_state st t s) t).map TaskState.owner = some none)
    ∧ (s.progress = some "" →
        (get_task_state (update_task_state st t s) t).map TaskState.progress = some none)
    ∧ (s.last_error = some "" →
        (get_task_state (update_task_state st t s) t).map TaskState.last_error = some none) := by
  refine ⟨get_update_self st t s, ?_, ?_, ?_, ?_⟩
  · intro h1 h2 h3
    rw [get_update_self, normalize_of_normalized s ⟨h1, h2, h3⟩]
  · intro h
    rw [get_update_self]
    simp [normalize_state, py_or_none, h]
  · intro h
    rw [get_update_self]
    simp [normalize_state, py_or_none, h]
  · intro h
    rw [get_update_self]
    simp [normalize_state, py_or_none, h]

/-- Witness for claim C10: a concrete state with non-empty fields
round-trips unchanged; an empty owner reads back as null. -/
theorem claim_C10_witness :
    get_task_state (update_task_state stNoCap "t1"
        ⟨.dev_done, some "agent-1", some 17, some "built", ["a.txt"], none⟩) "t1"
      = some ⟨.dev_done, some "agent-1", some 17, some "built", ["a.txt"], none⟩
    ∧ (get_task_state (update_task_state stNoCap "t2"
        ⟨.ready, some "", none, none, [], none⟩) "t2").map TaskState.owner = some none :=
  ⟨(claim_C10 stNoCap "t1" ⟨.dev_done, some "agent-1", some 17, some "built", ["a.txt"], none⟩).2.1
      (by decide) (by decide) (by decide),
    (claim_C10 stNoCap "t2" ⟨.ready, some "", none, none, [], none⟩).2.2.1 (by decide)⟩

theorem mem_of_lookup {α : Type} (l : List (String × α)) (k : String) (v : α)
    (h : l.lookup k = some v) : (k, v) ∈ l := by
  induction l with
  | nil => simp [List.lookup] at h
  | cons p ps ih =>
    rw [List.lookup] at h
    cases hk : (k == p.1) with
    | true =>
      rw [hk] at h
      simp only [cond_true, Option.some.injEq] at h
      have hkp : k = p.1 := beq_iff_eq.mp hk
      have hpv : (k, v) = p := by rw [hkp, ← h]
      rw [hpv]
      exact List.mem_cons_self p ps
    | false =>
      rw [hk] at h
      simp only [cond_false] at h
      exact List.mem_cons_of_mem p (ih h)

theorem lookup_map_by_id {β : Type} (f : String → β) (k : String) :
    ∀ (L : List TaskNode),
      ((L.map (fun n => (n.id, f n.id))).lookup k)
        = if k ∈ L.map (fun n => n.id) then some (f k) else none := by
  intro L
  induction L with
  | nil => simp [List.lookup]
  | cons n ns ih =>
    simp only [List.map_cons]
    rw [List.lookup]
    cases hk : (k == n.id) with
    | true =>
      have hkn : k = n.id := beq_iff_eq.mp hk
      rw [if_pos (by simp [hkn])]
      simp [hkn]
    | false =>
      have hkn : k ≠ n.id := by simpa using hk
      simp only [cond_false]
      rw [ih]
      by_cases hm : k ∈ ns.map (fun n => n.id)
      · rw [if_pos hm, if_pos (by simp [hm])]
      · rw [if_neg hm, if_neg (by simp [hkn, hm])]

theorem keys_eq_ids (st : Store) (hKey : NodesKeyOk st) :
    st.nodes.map Prod.fst = (st.nodes.map Prod.snd).map (fun n => n.id) := by
  rw [List.map_map]
  apply List.map_congr_left
  intro p hp
  exact hKey p hp

/-- Claim C1 (corrected): applying `ELEVATE tid p` with a numeric priority
to an existing task updates that node's priority and leaves every other
node's definition and the whole dependency structure unchanged - but it
does NOT leave the task states unchanged: because _elevate_task persists
through write_dag, every node's state hash gets its status field
re-initialised (READY for a node without dependencies, BLOCKED
otherwise) and its artifacts field reset to [], while the remaining
fields (owner, lease, progress, last_error) survive as leftovers.  In
particular a DEV_DONE task does not stay DEV_DONE (see
claim_C1_counterexample). -/
theorem claim_C1 (st : Store) (goal_id tid prio : String) (p : Int) (nd : TaskNode)
    (hKey : NodesKeyOk st) (hNN : NodesNodup st) (hD : DepsNodup st)
    (hC : DagConsistent st) (hmem : (tid, nd) ∈ st.nodes) (hp : pyInt? prio = some p) :
    get_task_node (elevate_task st goal_id tid prio) tid = some { nd with priority := p }
    ∧ (∀ k m, (k, m) ∈ st.nodes → k ≠ tid →
        get_task_node (elevate_task st goal_id tid prio) k = some m)
    ∧ (∀ k, depsOf (elevate_task st goal_id tid prio) k = depsOf st k)
    ∧ (∀ k m, (k, m) ∈ st.nodes → ∀ s, get_task_state st k = some s →
        get_task_state (elevate_task st goal_id tid prio) k
          = some { s with
              status := if (depsOf st k).isEmpty then TaskStatus.ready else TaskStatus.blocked,
              artifacts := [] })
    ∧ (∀ i, (∀ q ∈ st.nodes, q.1 ≠ i) →
        (elevate_task st goal_id tid prio).states i = st.states i) := by
  have hne : ¬ st.nodes.isEmpty := by
    cases hsn : st.nodes with
    | nil => rw [hsn] at hmem; simp at hmem
    | cons q qs => simp
  have hread : read_dag st goal_id
      = some ⟨goal_id, st.nodes.map Prod.snd,
          (st.deps.map (fun p => p.2.map (fun d => (d, p.1)))).flatten⟩ := by
    unfold read_dag
    rw [if_neg hne]
  have helev : elevate_task st goal_id tid prio
      = write_dag st ⟨goal_id, elevate_nodes (st.nodes.map Prod.snd) tid prio,
          (st.deps.map (fun p => p.2.map (fun d => (d, p.1)))).flatten⟩ := by
    unfold elevate_task
    rw [hread]
  have hidsdag : ((st.nodes.map Prod.snd).map (fun n => n.id)).Nodup :=
    dag_ids_nodup st goal_id _ hKey hNN hread
  have hidsE : (elevate_nodes (st.nodes.map Prod.snd) tid prio).map (fun n => n.id)
      = st.nodes.map Prod.fst := by
    rw [elevate_nodes_ids, keys_eq_ids st hKey]
  have hnodupE : ((elevate_nodes (st.nodes.map Prod.snd) tid prio).map
      (fun n => n.id)).Nodup := by
    rw [elevate_nodes_ids]
    exact hidsdag
  obtain ⟨w1, w2, w3, w4, w5, w6⟩ :=
    write_dag_spec st ⟨goal_id, elevate_nodes (st.nodes.map Prod.snd) tid prio,
      (st.deps.map (fun p => p.2.map (fun d => (d, p.1)))).flatten⟩ hnodupE
  have hdeps_eq : ∀ nid,
      DagModel.dependencies_for ⟨goal_id, elevate_nodes (st.nodes.map Prod.snd) tid prio,
        (st.deps.map (fun p => p.2.map (fun d => (d, p.1)))).flatten⟩ nid
        = depsOf st nid := by
    intro nid
    have h1 := dependencies_for_read st goal_id _ hD hread
    have h2 := h1 nid
    unfold DagModel.dependencies_for at h2 ⊢
    exact h2
  refine ⟨?_, ?_, ?_, ?_, ?_⟩
  · rw [helev]
    unfold get_task_node
    rw [w1]
    exact elevate_nodes_lookup_self (st.nodes.map Prod.snd) tid prio p hp nd hidsdag
      (by exact List.mem_map_of_mem Prod.snd hmem)
      (hKey (tid, nd) hmem).symm
  · intro k m hkm hk
    rw [helev]
    unfold get_task_node
    rw [w1]
    rw [elevate_nodes_lookup_other (st.nodes.map Prod.snd) tid prio k hk]
    rw [nodes_remap st hKey]
    exact lookup_of_mem_nodup st.nodes k m hkm hNN
  · intro k
    rw [helev]
    unfold depsOf
    rw [w2]
    rw [lookup_map_by_id
      (DagModel.dependencies_for ⟨goal_id, elevate_nodes (st.nodes.map Prod.snd) tid prio,
        (st.deps.map (fun p => p.2.map (fun d => (d, p.1)))).flatten⟩) k
      (elevate_nodes (st.nodes.map Prod.snd) tid prio)]
    by_cases hk : k ∈ (elevate_nodes (st.nodes.map Prod.snd) tid prio).map (fun n => n.id)
    · rw [if_pos hk]
      simp only [Option.getD_some]
      exact hdeps_eq k
    · rw [if_neg hk]
      simp only [Option.getD_none]
      cases hlk : st.deps.lookup k with
      | none => rfl
      | some v =>
        exfalso
        apply hk
        rw [hidsE]
        exact (hC (k, v) (mem_of_lookup st.deps k v hlk)).1
  · intro k m hkm s hs
    have hkeq : k = m.id := hKey (k, m) hkm
    have hkE : k ∈ (elevate_nodes (st.nodes.map Prod.snd) tid prio).map (fun n => n.id) := by
      rw [hidsE]
      exact List.mem_map_of_mem Prod.fst hkm
    obtain ⟨n', hn'mem, hn'id⟩ := List.mem_map.mp hkE
    cases hraw : st.states k with
    | none =>
      unfold get_task_state at hs
      rw [hraw] at hs
      simp at hs
    | some raw =>
      have hds : deserialize_state raw = some s := by
        unfold get_task_state at hs
        rw [hraw] at hs
        exact hs
      rw [helev]
      unfold get_task_state
      have := w4 n' hn'mem
      rw [hn'id] at this
      rw [this, hraw]
      simp only [Option.getD_some]
      rw [deserialize_mergeInit raw s _ hds]
      rw [hdeps_eq k]
      rfl
  · intro i hi
    rw [helev]
    apply w3
    intro n hn hni
    have : n.id ∈ st.nodes.map Prod.fst := by
      rw [← hidsE]
      exact List.mem_map_of_mem _ hn
    obtain ⟨q, hq, hq2⟩ := List.mem_map.mp this
    exact (hi q hq) (by rw [hq2, hni])

/-- Witness for claim C1: the elevated node's priority is updated. -/
theorem claim_C1_witness :
    get_task_node (elevate_task stC1 "g" "n1" "7") "n1" = some { nodeC1 with priority := 7 } :=
  (claim_C1 stC1 "g" "n1" "7" 7 nodeC1 (by decide) (by decide) (by decide) (by decide)
    (by decide) (by decide)).1

/-- Counterexample to claim C1 as stated: before the ELEVATE directive
task n1 is DEV_DONE; afterwards its priority is updated but its status
has been re-initialised to READY (and its artifacts cleared), so the
state record is NOT unchanged. -/
theorem claim_C1_counterexample :
    get_task_state stC1 "n1" = some ⟨.dev_done, none, none, some "built", ["a.txt"], none⟩
    ∧ get_task_node (elevate_task stC1 "g" "n1" "5") "n1" = some { nodeC1 with priority := 5 }
    ∧ get_task_state (elevate_task stC1 "g" "n1" "5") "n1"
        = some ⟨.ready, none, none, some "built", [], none⟩
    ∧ TaskStatus.ready ≠ TaskStatus.dev_done := by
  refine ⟨?_, ?_, ?_, ?_⟩ <;> decide

theorem filter_and {α : Type} (l : List α) (p q : α → Bool) :
    (l.filter p).filter q = l.filter (fun a => p a && q a) := by
  induction l with
  | nil => rfl
  | cons a as ih =>
    simp only [List.filter_cons]
    cases hp : p a <;> cases hq : q a <;> simp [List.filter_cons, hp, hq, ih]

theorem filter_ext {α : Type} (l : List α) (p q : α → Bool) (h : ∀ a, p a = q a) :
    l.filter p = l.filter q := by
  have : p = q := funext h
  rw [this]

/-- Claim C2 (confirmed): for a goal with a stored DAG, list_ready_tasks
returns exactly the ids of nodes that - after the stale-recovery pass it
begins with - have state READY or BLOCKED and all of whose incoming-edge
sources have a status in the satisfied set; every BLOCKED node it
returns is rewritten to READY; and the ids come from a node sequence
sorted by descending priority in which nodes of equal priority keep
their insertion order. -/
theorem claim_C2 (st : Store) (goal_id : String) (now : Int) (dag : DagModel)
    (hKey : NodesKeyOk st) (hNN : NodesNodup st) (hD : DepsNodup st)
    (hC : DagConsistent st) (hdag : read_dag st goal_id = some dag) :
    (∀ i, i ∈ (list_ready_tasks st goal_id now).2
      ↔ ∃ n, n ∈ dag.nodes ∧ n.id = i
          ∧ qualB (recover_stale_tasks st goal_id now).1 dag n = true)
    ∧ (∀ n ∈ dag.nodes, ∀ s,
        get_task_state (recover_stale_tasks st goal_id now).1 n.id = some s →
        qualB (recover_stale_tasks st goal_id now).1 dag n = true →
        s.status = .blocked →
        get_task_state (list_ready_tasks st goal_id now).1 n.id = some (promoteState s))
    ∧ (∃ L : List TaskNode,
        (list_ready_tasks st goal_id now).2 = L.map (fun n => n.id)
        ∧ L.Pairwise (fun a b => b.priority ≤ a.priority)
        ∧ ∀ p : Int, L.filter (fun n => n.priority = p)
            = dag.nodes.filter (fun n =>
                qualB (recover_stale_tasks st goal_id now).1 dag n
                  && decide (n.priority = p))) := by
  obtain ⟨r1, r2⟩ := list_ready_spec st goal_id now dag hKey hNN hdag
  refine ⟨?_, ?_, ?_⟩
  · intro i
    rw [r1]
    simp only [List.mem_map, List.mem_filter]
    constructor
    · rintro ⟨n, ⟨hnmem, hq⟩, rfl⟩
      exact ⟨n, (sortDesc_perm dag.nodes).mem_iff.mp hnmem, rfl, hq⟩
    · rintro ⟨n, hnmem, rfl, hq⟩
      exact ⟨n, ⟨(sortDesc_perm dag.nodes).mem_iff.mpr hnmem, hq⟩, rfl⟩
  · intro n hn s hs hq hblock
    have := r2 n hn s hs hq
    rw [if_pos hblock] at this
    exact this
  · refine ⟨(sortDesc dag.nodes).filter
      (fun n => qualB (recover_stale_tasks st goal_id now).1 dag n), r1, ?_, ?_⟩
    · exact List.Pairwise.sublist (List.filter_sublist _) (sortDesc_pairwise dag.nodes)
    · intro p
      calc ((sortDesc dag.nodes).filter
            (fun n => qualB (recover_stale_tasks st goal_id now).1 dag n)).filter
            (fun n => decide (n.priority = p))
          = (sortDesc dag.nodes).filter
              (fun n => qualB (recover_stale_tasks st goal_id now).1 dag n
                && decide (n.priority = p)) := filter_and _ _ _
        _ = (sortDesc dag.nodes).filter
              (fun n => decide (n.priority = p)
                && qualB (recover_stale_tasks st goal_id now).1 dag n) :=
            filter_ext _ _ _ (fun n => Bool.and_comm _ _)
        _ = ((sortDesc dag.nodes).filter (fun n => decide (n.priority = p))).filter
              (fun n => qualB (recover_stale_tasks st goal_id now).1 dag n) :=
            (filter_and _ _ _).symm
        _ = (dag.nodes.filter (fun n => decide (n.priority = p))).filter
              (fun n => qualB (recover_stale_tasks st goal_id now).1 dag n) := by
            rw [sortDesc_filter_eq]
        _ = dag.nodes.filter
              (fun n => decide (n.priority = p)
                && qualB (recover_stale_tasks st goal_id now).1 dag n) := filter_and _ _ _
        _ = dag.nodes.filter
              (fun n => qualB (recover_stale_tasks st goal_id now).1 dag n
                && decide (n.priority = p)) :=
            filter_ext _ _ _ (fun n => Bool.and_comm _ _)

/-- Witness for claim C2 at a concrete store. -/
theorem claim_C2_witness :
    ("B" ∈ (list_ready_tasks stC2 "g" 0).2
      ↔ ∃ n, n ∈ dagC2.nodes ∧ n.id = "B"
          ∧ qualB (recover_stale_tasks stC2 "g" 0).1 dagC2 n = true) :=
  (claim_C2 stC2 "g" 0 dagC2 (by decide) (by decide) (by decide) (by decide)
    (by decide)).1 "B"

/-- Claim C5 (corrected): a RUNNING/CLAIMED node whose lock is absent or
whose lease has expired is reset by recover_stale_tasks to READY with
owner and lease cleared, its id is in the recovered list, and every node
not meeting the condition keeps its state; but the id appears in
list_ready_tasks' result only when, additionally, all of the node's
incoming-edge sources are satisfied - a recovered node with an
unsatisfied dependency is NOT returned (see claim_C5_counterexample). -/
theorem claim_C5 (st : Store) (goal_id : String) (now : Int) (dag : DagModel)
    (hKey : NodesKeyOk st) (hNN : NodesNodup st) (hD : DepsNodup st)
    (hdag : read_dag st goal_id = some dag) (n : TaskNode) (hnmem : n ∈ dag.nodes)
    (s : TaskState) (hs : get_task_state st n.id = some s)
    (hstat : s.status = .running ∨ s.status = .claimed)
    (hcond : st.locks n.id = none ∨ ∃ t, s.lease_expires = some t ∧ t ≤ now) :
    get_task_state (recover_stale_tasks st goal_id now).1 n.id = some (recovState s)
    ∧ n.id ∈ (recover_stale_tasks st goal_id now).2
    ∧ (∀ m ∈ dag.nodes, staleCond st now m = false →
        get_task_state (recover_stale_tasks st goal_id now).1 m.id = get_task_state st m.id)
    ∧ ((dag.dependencies_for n.id).all
          (fun d => satB (recover_stale_tasks st goal_id now).1 d) = true →
        n.id ∈ (list_ready_tasks st goal_id now).2) := by
  have hor : (st.locks n.id).isNone = true ∨ leaseExpiredB s now = true := by
    rcases hcond with h | ⟨t, ht, hle⟩
    · left
      rw [h]
      rfl
    · right
      unfold leaseExpiredB
      rw [ht]
      simpa using hle
  have hstale : staleCond st now n = true := (staleCond_iff st now n s hs).mpr ⟨hstat, hor⟩
  obtain ⟨rs1, rs2, rs3, rs4, rs5, rs6, rs7, rs8⟩ :=
    recover_stale_spec st goal_id now dag hKey hNN hdag
  have hrec : get_task_state (recover_stale_tasks st goal_id now).1 n.id
      = some (recovState s) := rs4 n hnmem s hs hstale
  refine ⟨hrec, ?_, rs3, ?_⟩
  · rw [rs1]
    exact List.mem_map_of_mem _ (List.mem_filter.mpr ⟨hnmem, hstale⟩)
  · intro hall
    obtain ⟨r1, -⟩ := list_ready_spec st goal_id now dag hKey hNN hdag
    rw [r1]
    have hq : qualB (recover_stale_tasks st goal_id now).1 dag n = true :=
      (qualB_iff _ dag n (recovState s) hrec).mpr ⟨Or.inl rfl, hall⟩
    exact List.mem_map_of_mem _
      (List.mem_filter.mpr ⟨(sortDesc_perm dag.nodes).mem_iff.mpr hnmem, hq⟩)

/-- Witness for claim C5: the stale task B is reset and reported. -/
theorem claim_C5_witness :
    get_task_state (recover_stale_tasks stC5 "g" 10).1 "B"
      = some (recovState ⟨.running, some "agent-x", some 0, none, [], none⟩)
    ∧ "B" ∈ (recover_stale_tasks stC5 "g" 10).2 :=
  ⟨(claim_C5 stC5 "g" 10 dagC5 (by decide) (by decide) (by decide) (by decide) nodeB5
      (by decide) ⟨.running, some "agent-x", some 0, none, [], none⟩ (by decide)
      (by decide) (Or.inl rfl)).1,
    (claim_C5 stC5 "g" 10 dagC5 (by decide) (by decide) (by decide) (by decide) nodeB5
      (by decide) ⟨.running, some "agent-x", some 0, none, [], none⟩ (by decide)
      (by decide) (Or.inl rfl)).2.1⟩

/-- Counterexample to claim C5 as stated: B is RUNNING with an expired
lease and a missing lock, so it is recovered to READY and reported in
the recovered list - but its id does NOT appear in list_ready_tasks'
result, because its dependency A (merely READY) is not satisfied.  Only
A is returned. -/
theorem claim_C5_counterexample :
    staleCond stC5 10 nodeB5 = true
    ∧ "B" ∈ (recover_stale_tasks stC5 "g" 10).2
    ∧ "B" ∉ (list_ready_tasks stC5 "g" 10).2
    ∧ "A" ∈ (list_ready_tasks stC5 "g" 10).2 := by
  refine ⟨?_, ?_, ?_, ?_⟩ <;> decide

theorem keyok_hset (l : List (String × TaskNode)) (k : String) (v : TaskNode)
    (hv : v.id = k) (hKey : ∀ p ∈ l, p.1 = p.2.id) :
    ∀ p ∈ hset l k v, p.1 = p.2.id := by
  unfold hset
  split
  · intro p hp
    simp only [List.mem_map] at hp
    obtain ⟨q, hq, rfl⟩ := hp
    by_cases hqk : q.1 = k
    · simp [hqk, hv.symm]
    · simp [hqk]
      exact hKey q hq
  · intro p hp
    rcases List.mem_append.mp hp with h | h
    · exact hKey p h
    · simp at h
      rw [h]
      exact hv.symm

theorem create_remediation_spec (st : Store) (goal_id qa dev_role : String)
    (cycle pri : Int) (hKey : NodesKeyOk st) (hC : DagConsistent st)
    (hqa : qa ∈ st.nodes.map Prod.fst) :
    ∃ st2 rid,
      create_remediation_task st goal_id qa dev_role cycle pri = some (st2, rid)
      ∧ rid ∉ st.nodes.map Prod.fst
      ∧ (rid = qa ++ "__fix_" ++ strOfInt cycle
          ∨ ∃ k, 1 ≤ k ∧ rid = idCandidate (qa ++ "__fix_" ++ strOfInt cycle) k)
      ∧ get_task_node st2 rid = some
          ⟨rid, "Address QA findings for " ++ qa ++ " (cycle " ++ strOfInt cycle ++ ")",
            pri, ["fix-report.md"],
            [("phase", "development"), ("required_role", dev_role),
              ("parent_task_id", qa), ("review_cycle", strOfInt cycle),
              ("dev_role", dev_role)]⟩
      ∧ get_task_state st2 rid = some ⟨.ready, none, none, none, [], none⟩
      ∧ depsOf st2 qa = depsOf st qa ++ [rid]
      ∧ (∀ t, t ≠ rid → get_task_state st2 t = get_task_state st t) := by
  have hne : ¬ st.nodes.isEmpty := by
    cases hsn : st.nodes with
    | nil => rw [hsn] at hqa; simp at hqa
    | cons q qs => simp
  have hread : read_dag st goal_id
      = some ⟨goal_id, st.nodes.map Prod.snd,
          (st.deps.map (fun p => p.2.map (fun d => (d, p.1)))).flatten⟩ := by
    unfold read_dag
    rw [if_neg hne]
  have hex : (st.nodes.map Prod.snd).map (fun n => n.id) = st.nodes.map Prod.fst :=
    (keys_eq_ids st hKey).symm
  set rid := fresh_task_id (qa ++ "__fix_" ++ strOfInt cycle)
    ((st.nodes.map Prod.snd).map (fun n => n.id)) with hrid
  obtain ⟨hfresh, hshape⟩ := fresh_task_id_spec (qa ++ "__fix_" ++ strOfInt cycle)
    ((st.nodes.map Prod.snd).map (fun n => n.id))
  have hridkeys : rid ∉ st.nodes.map Prod.fst := by
    rw [← hex]
    exact hfresh
  have hridqa : rid ≠ qa := fun hc => hridkeys (by rw [hc]; exact hqa)
  have hqadeps : ((hset st.deps rid []).lookup qa).getD [] = depsOf st qa := by
    rw [lookup_hset_other st.deps rid qa [] (Ne.symm hridqa)]
    rfl
  have hnotmem : rid ∉ ((hset st.deps rid []).lookup qa).getD [] := by
    rw [hqadeps]
    unfold depsOf
    cases hlk : st.deps.lookup qa with
    | none => simp
    | some ds =>
      simp only [Option.getD_some]
      intro hmem
      exact hridkeys ((hC (qa, ds) (mem_of_lookup st.deps qa ds hlk)).2 _ hmem)
  refine ⟨update_task_state
      { st with
        nodes := hset st.nodes rid
          ⟨rid, "Address QA findings for " ++ qa ++ " (cycle " ++ strOfInt cycle ++ ")",
            pri, ["fix-report.md"],
            [("phase", "development"), ("required_role", dev_role),
              ("parent_task_id", qa), ("review_cycle", strOfInt cycle),
              ("dev_role", dev_role)]⟩
        deps := hset (hset st.deps rid []) qa
          ((((hset st.deps rid []).lookup qa).getD []) ++ [rid]) }
      rid ⟨.ready, none, none, none, [], none⟩, rid, ?_, hridkeys, hshape, ?_, ?_, ?_, ?_⟩
  · unfold create_remediation_task
    rw [hread]
    dsimp only
    rw [← hrid, if_neg hnotmem]
  · unfold get_task_node update_task_state
    dsimp only
    exact lookup_hset_self _ _ _
  · exact get_update_self_normalized _ _ _ ⟨by simp, by simp, by simp⟩
  · unfold depsOf update_task_state
    dsimp only
    rw [lookup_hset_self]
    simp only [Option.getD_some]
    rw [hqadeps]
    rfl
  · intro t ht
    rw [get_update_other _ _ _ _ ht]
    rfl

/-- Claim C4 (confirmed): when a QA-phase task's execution comes back
with status "failed", _record_result branches to _record_qa_failure:
afterwards a fresh remediation node whose id is the QA task's id with a
`__fix_<cycle>` suffix (further suffixed on collision) exists in the
nodes hash with metadata phase=development, required_role = the
responsible dev role, parent_task_id = the QA task id; its state is
READY; it is an incoming-edge source (dependency) of the QA task; and
the QA task's state is BLOCKED with the execution summary as progress
and an empty artifacts list. -/
theorem claim_C4 (st : Store) (goal_id agent_role : String) (node : TaskNode)
    (execution : TaskExecutionResult) (summary : String) (oracle : OracleScript) (c0 : Int)
    (hKey : NodesKeyOk st) (hC : DagConsistent st)
    (hmem : (node.id, node) ∈ st.nodes)
    (hphase : node.metadata.lookup "phase" = some "qa")
    (hstatus : pyStripLower execution.status = "failed")
    (hcycle : pyInt? ((node.metadata.lookup "review_cycle").getD "0") = some c0) :
    ∃ st' rid,
      record_result st goal_id agent_role node execution summary oracle = some (st', [])
      ∧ rid ∉ st.nodes.map Prod.fst
      ∧ (rid = node.id ++ "__fix_" ++ strOfInt (c0 + 1)
          ∨ ∃ k, 1 ≤ k ∧ rid = idCandidate (node.id ++ "__fix_" ++ strOfInt (c0 + 1)) k)
      ∧ (∃ remNode, get_task_node st' rid = some remNode
          ∧ remNode.id = rid
          ∧ remNode.metadata.lookup "phase" = some "development"
          ∧ remNode.metadata.lookup "required_role"
              = some (if 3 < c0 + 1 ∧ (node.metadata.lookup "manager_role").getD "" ≠ ""
                  then (node.metadata.lookup "manager_role").getD ""
                  else py_or_str ((node.metadata.lookup "dev_role").getD "") agent_role)
          ∧ remNode.metadata.lookup "parent_task_id" = some node.id)
      ∧ get_task_state st' rid = some ⟨.ready, none, none, none, [], none⟩
      ∧ rid ∈ depsOf st' node.id
      ∧ get_task_state st' node.id
          = some ⟨.blocked, none, none, py_or_none (some summary), [], none⟩
      ∧ (summary ≠ "" →
          get_task_state st' node.id = some ⟨.blocked, none, none, some summary, [], none⟩) := by
  have hbr : record_result st goal_id agent_role node execution summary oracle
      = (record_qa_failure st goal_id agent_role node summary).map (fun st1 => (st1, [])) := by
    unfold record_result
    rw [hstatus, hphase]
    simp only [Option.getD_some]
    rw [if_pos ⟨trivial, Or.inl trivial⟩]
  have hany : st.nodes.any (fun p => p.1
      = TaskNode.id { node with
          metadata := hset node.metadata "review_cycle" (strOfInt (c0 + 1)) }) = true := by
    apply List.any_eq_true.mpr
    exact ⟨(node.id, node), hmem, by simp⟩
  have hkeys1 : (update_task_node st { node with
      metadata := hset node.metadata "review_cycle" (strOfInt (c0 + 1)) }).nodes.map Prod.fst
      = st.nodes.map Prod.fst := by
    unfold update_task_node
    exact hset_keys _ _ _ hany
  have hKey1 : NodesKeyOk (update_task_node st { node with
      metadata := hset node.metadata "review_cycle" (strOfInt (c0 + 1)) }) := by
    unfold update_task_node NodesKeyOk
    exact keyok_hset st.nodes _ _ rfl hKey
  have hC1 : DagConsistent (update_task_node st { node with
      metadata := hset node.metadata "review_cycle" (strOfInt (c0 + 1)) }) := by
    unfold DagConsistent at hC ⊢
    intro p hp
    rw [hkeys1]
    exact hC p hp
  have hqa1 : node.id ∈ (update_task_node st { node with
      metadata := hset node.metadata "review_cycle" (strOfInt (c0 + 1)) }).nodes.map
        Prod.fst := by
    rw [hkeys1]
    exact List.mem_map_of_mem Prod.fst hmem
  obtain ⟨st2, rid, hcreate, hfresh, hshape, hnode2, hstate2, hdeps2, hframe2⟩ :=
    create_remediation_spec
      (update_task_node st { node with
        metadata := hset node.metadata "review_cycle" (strOfInt (c0 + 1)) })
      goal_id node.id
      (if 3 < c0 + 1 ∧ (node.metadata.lookup "manager_role").getD "" ≠ ""
        then (node.metadata.lookup "manager_role").getD ""
        else py_or_str ((node.metadata.lookup "dev_role").getD "") agent_role)
      (c0 + 1) (max 0 (node.priority + 1)) hKey1 hC1 hqa1
  have hfresh' : rid ∉ st.nodes.map Prod.fst := by
    rw [← hkeys1]
    exact hfresh
  have hridnode : rid ≠ node.id := by
    intro hc
    apply hfresh'
    rw [hc]
    exact List.mem_map_of_mem Prod.fst hmem
  have hqaf : record_qa_failure st goal_id agent_role node summary
      = some (update_task_state st2 node.id ⟨.blocked, none, none, some summary, [], none⟩) := by
    unfold record_qa_failure
    rw [hcycle]
    dsimp only
    rw [hcreate]
  refine ⟨update_task_state st2 node.id ⟨.blocked, none, none, some summary, [], none⟩, rid,
    ?_, hfresh', hshape, ?_, ?_, ?_, ?_, ?_⟩
  · rw [hbr, hqaf]
    rfl
  · refine ⟨_, hnode2, rfl, ?_, ?_, ?_⟩ <;> rfl
  · rw [get_update_other _ _ _ _ hridnode]
    exact hstate2
  · have hd := hdeps2
    unfold depsOf at hd
    unfold depsOf update_task_state
    dsimp only
    rw [hd]
    simp
  · rw [get_update_self]
    rfl
  · intro hsum
    rw [get_update_self]
    simp [normalize_state, py_or_none, hsum]

/-- Witness for claim C4 on a one-node QA store. -/
theorem claim_C4_witness :
    ∃ st' rid,
      record_result stC4 "g" "agent" nodeC4 execC4 "qa found issues" oracleNull = some (st', [])
      ∧ rid ∉ stC4.nodes.map Prod.fst
      ∧ (rid = nodeC4.id ++ "__fix_" ++ strOfInt (1 + 1)
          ∨ ∃ k, 1 ≤ k ∧ rid = idCandidate (nodeC4.id ++ "__fix_" ++ strOfInt (1 + 1)) k)
      ∧ (∃ remNode, get_task_node st' rid = some remNode
          ∧ remNode.id = rid
          ∧ remNode.metadata.lookup "phase" = some "development"
          ∧ remNode.metadata.lookup "required_role"
              = some (if (3 : Int) < 1 + 1 ∧ (nodeC4.metadata.lookup "manager_role").getD "" ≠ ""
                  then (nodeC4.metadata.lookup "manager_role").getD ""
                  else py_or_str ((nodeC4.metadata.lookup "dev_role").getD "") "agent")
          ∧ remNode.metadata.lookup "parent_task_id" = some nodeC4.id)
      ∧ get_task_state st' rid = some ⟨.ready, none, none, none, [], none⟩
      ∧ rid ∈ depsOf st' nodeC4.id
      ∧ get_task_state st' nodeC4.id
          = some ⟨.blocked, none, none, py_or_none (some "qa found issues"), [], none⟩
      ∧ ("qa found issues" ≠ "" →
          get_task_state st' nodeC4.id
            = some ⟨.blocked, none, none, some "qa found issues", [], none⟩) :=
  claim_C4 stC4 "g" "agent" nodeC4 execC4 "qa found issues" oracleNull 1
    (by decide) (by decide) (by decide) (by decide) (by decide) (by decide)
